import Mathlib

/-!
# prometheus-ecs-sd: TTL cache, cached ECS client and scrape-config aggregation

A shallow embedding of `internal/cache/cache.go`, `internal/client/ecs.go` and
`internal/discovery/scrape.go`.

Modelling conventions

* `sync.Map` is a finite map with an unspecified iteration order.  It is
  embedded as an association list with pairwise distinct keys (`AList`); the
  order of the list stands for whichever order `sync.Map.Range` happens to use,
  so a statement proved for every list is proved for every order.
* A Go value of type `any` is an `Option`: `none` is the nil interface, `some v`
  a value with a dynamic type.
* The clock is explicit.  Every operation that calls `time.Now()` takes the
  reading `now`, in Unix nanoseconds (the value of `time.Now().UnixNano()`, an
  `int64`).  `time.Duration` is an `int64` count of nanoseconds.  A method of
  the cached client reads the clock for its lookups (`now`) and again, after
  the upstream call has returned, for its stores (`now2`).
* A Go pointer that the code tests against nil, or that can be nil on some path
  of this repository, is an `Option`; a dereference of a nil output or a failed
  type assertion is a runtime panic, which the embedding reports as such.  The
  string fields of the AWS SDK structures that the code dereferences
  unconditionally (`ClusterName`, `TaskArn`, tag `Key` and `Value`) are
  embedded as plain strings.
* The logger is an injected collaborator without effect on the results; its
  calls are left out, except for the one argument whose evaluation can panic:
  `*params.Cluster` in the debug log of `ECSCache.DescribeTasks`.
* The `go` directive of `go.mod` is not part of the sources.  It decides whether
  the variable of a `for ... range` loop is per iteration (Go 1.22 and later)
  or shared by all iterations; the one loop that takes the address of its
  variable takes this as a parameter.
* Strings are sequences of Unicode code points (valid UTF-8 on the Go side).
-/

namespace EcsSd

/-! ## internal/cache/cache.go -/

namespace cache

/-- Truncation of an integer to the two's-complement `int64` range. -/
def wrapInt64 (x : Int) : Int := (x + 2 ^ 63) % 2 ^ 64 - 2 ^ 63

/-- The struct `item`: arbitrary data with an expiration time; `expires = 0`
(any non-positive value, in fact) means that the item never expires. -/
structure item (V : Type) where
  data : Option V
  expires : Int
deriving DecidableEq, Repr

/-- The struct `Cache`.  The channel `close` is not part of the state; what
matters of it is whether a janitor goroutine is there to receive from it:
`janitorRunning`. -/
structure Cache (K V : Type) where
  items : AList (fun _ : K => item V)
  returnStale : Bool
  janitorInterval : Int
  defaultExpiration : Int
  janitorRunning : Bool

/-- The functional options accepted by `New`. -/
inductive Option_ where
  | WithJanitor (interval : Int)
  | WithGetReturnStale
  | WithDefaultExpiration (expiration : Int)
deriving DecidableEq, Repr

/-- Applies one option to the cache under construction.  `WithJanitor` with a
non-positive interval returns an error, which `New` discards, and leaves the
cache unchanged. -/
def Option_.apply {K V : Type} (o : Option_) (c : Cache K V) : Cache K V :=
  match o with
  | .WithJanitor interval =>
    if interval ≤ 0 then c else { c with janitorInterval := interval }
  | .WithGetReturnStale => { c with returnStale := true }
  | .WithDefaultExpiration expiration => { c with defaultExpiration := expiration }

/-- The options of `New` applied in order to the initial struct: an empty
store, no janitor and no default expiration. -/
def applyOptions {K V : Type} (opts : List Option_) : Cache K V :=
  opts.foldl (fun c o => o.apply c)
    { items := ∅, returnStale := false, janitorInterval := -1, defaultExpiration := -1,
      janitorRunning := false }

/-- The constructor `New`: the options are applied and the janitor goroutine is
started when the interval is positive. -/
def New {K V : Type} (opts : List Option_) : Cache K V :=
  { (applyOptions opts : Cache K V) with
    janitorRunning := decide ((applyOptions opts : Cache K V).janitorInterval > 0) }

variable {K V : Type} [DecidableEq K]

/-- The test `it.expires > 0 && now > it.expires` shared by `Get`, `Range` and
the janitor. -/
def item.expired (it : item V) (now : Int) : Bool :=
  decide (it.expires > 0) && decide (now > it.expires)

/-- The method `Get`, at clock reading `now`. -/
def Cache.Get (c : Cache K V) (now : Int) (key : K) : Option V × Bool :=
  match c.items.lookup key with
  | none => (none, false)
  | some it =>
    if it.expired now then
      if c.returnStale then (it.data, false) else (none, false)
    else (it.data, true)

/-- The method `Set`, at clock reading `now`.  `time.Now().Add(duration)` is
exact on the wall clock; `UnixNano()` truncates the result to `int64`. -/
def Cache.Set (c : Cache K V) (now : Int) (key : K) (value : Option V) (duration : Int) :
    Cache K V :=
  let expires : Int := if duration > 0 then wrapInt64 (now + duration) else 0
  { c with items := c.items.insert key { data := value, expires := expires } }

/-- The method `SetDefault`. -/
def Cache.SetDefault (c : Cache K V) (now : Int) (key : K) (value : Option V) : Cache K V :=
  c.Set now key value c.defaultExpiration

/-- The method `Delete`. -/
def Cache.Delete (c : Cache K V) (key : K) : Cache K V :=
  { c with items := c.items.erase key }

/-- The method `Close`: the send `c.close <- struct{}{}` completes only when a
janitor goroutine receives it, which stops the janitor; then the store is
replaced by an empty one.  Without a running janitor (no `WithJanitor`, so
that the channel is nil, or an earlier `Close`) the send blocks forever and
the store is never emptied: `none`. -/
def Cache.Close (c : Cache K V) : Option (Cache K V) :=
  if c.janitorRunning then some { c with items := ∅, janitorRunning := false } else none

/-- The loop of `sync.Map.Range` driven by the wrapper `fn` of `Cache.Range`:
expired entries are stepped over, the others are handed to `f`, and the
iteration stops after the first call of `f` that returns false.  The result is
the list of the calls of `f`, in order. -/
def rangeLoop (now : Int) (f : K → Option V → Bool) :
    List (Sigma fun _ : K => item V) → List (K × Option V)
  | [] => []
  | e :: rest =>
    if e.2.expired now then rangeLoop now f rest
    else if f e.1 e.2.data then (e.1, e.2.data) :: rangeLoop now f rest
    else [(e.1, e.2.data)]

/-- The method `Range`, at clock reading `now` (read once, before the
iteration): the calls of `f` that it makes. -/
def Cache.Range (c : Cache K V) (now : Int) (f : K → Option V → Bool) : List (K × Option V) :=
  rangeLoop now f c.items.entries

/-- One tick of the goroutine `janitor`, at clock reading `now`: a
`sync.Map.Range` over the entries that deletes, by key, every entry with
`it.expires > 0 && now > it.expires`. -/
def Cache.janitorTick (c : Cache K V) (now : Int) : Cache K V :=
  let step := fun (s : AList (fun _ : K => item V)) (e : Sigma fun _ : K => item V) =>
    if e.2.expired now then s.erase e.1 else s
  { c with items := List.foldl step c.items c.items.entries }

end cache

/-- A Go `error` value: a message, and for `fmt.Errorf("... %w", err)` the
wrapped error. -/
inductive GoError where
  | mk (msg : String)
  | wrap (msg : String) (cause : GoError)
deriving DecidableEq, Repr

/-- The method `Error()`: the message of an error; the format `%w` prints the
message of the wrapped error after the context. -/
def GoError.Error : GoError → String
  | .mk msg => msg
  | .wrap msg cause => msg ++ cause.Error

/-- The unwrap chain of `errors.Is`: `e.Wraps target` when `target` is `e` or is
reached from `e` by unwrapping. -/
def GoError.Wraps : GoError → GoError → Bool
  | .mk msg, target => decide (GoError.mk msg = target)
  | .wrap msg cause, target => decide (GoError.wrap msg cause = target) || cause.Wraps target

/-! ## The AWS SDK structures used by the client and the aggregator -/

namespace types

/-- The struct `types.NetworkInterface`. -/
structure NetworkInterface where
  PrivateIpv4Address : Option String
deriving DecidableEq, Repr

/-- The struct `types.Container`. -/
structure Container where
  NetworkInterfaces : List NetworkInterface
deriving DecidableEq, Repr

/-- The struct `types.Task`; `HealthStatus` is a string type. -/
structure Task where
  TaskArn : String
  HealthStatus : String
  Containers : List Container
deriving DecidableEq, Repr

/-- The struct `types.Tag`. -/
structure Tag where
  Key : String
  Value : String
deriving DecidableEq, Repr

/-- The struct `types.Cluster`. -/
structure Cluster where
  ClusterName : String
  ClusterArn : Option String
deriving DecidableEq, Repr

/-- The constant `types.HealthStatusHealthy`. -/
def HealthStatusHealthy : String := "HEALTHY"

end types

namespace ecs

/-- The struct `ecs.DescribeClustersInput`. -/
structure DescribeClustersInput where
  Clusters : List String
deriving DecidableEq, Repr

/-- The struct `ecs.DescribeClustersOutput`. -/
structure DescribeClustersOutput where
  Clusters : List types.Cluster
deriving DecidableEq, Repr

/-- The struct `ecs.ListServicesInput`. -/
structure ListServicesInput where
  Cluster : Option String
deriving DecidableEq, Repr

/-- The struct `ecs.ListServicesOutput`. -/
structure ListServicesOutput where
  ServiceArns : List String
deriving DecidableEq, Repr

/-- The struct `ecs.ListTasksInput`. -/
structure ListTasksInput where
  Cluster : Option String
  ServiceName : Option String
deriving DecidableEq, Repr

/-- The struct `ecs.ListTasksOutput`; `TaskArns` is a slice that may be nil. -/
structure ListTasksOutput where
  TaskArns : Option (List String)
deriving DecidableEq, Repr

/-- The struct `ecs.DescribeTasksInput`; `Tasks` is a slice that may be nil. -/
structure DescribeTasksInput where
  Cluster : Option String
  Tasks : Option (List String)
deriving DecidableEq, Repr

/-- The struct `ecs.DescribeTasksOutput`. -/
structure DescribeTasksOutput where
  Tasks : List types.Task
deriving DecidableEq, Repr

/-- The struct `ecs.ListTagsForResourceInput`. -/
structure ListTagsForResourceInput where
  ResourceArn : Option String
deriving DecidableEq, Repr

/-- The struct `ecs.ListTagsForResourceOutput`. -/
structure ListTagsForResourceOutput where
  Tags : List types.Tag
deriving DecidableEq, Repr

end ecs

/-! ## internal/client/ecs.go -/

namespace client

open cache

/-- The constant `time.Minute`, in nanoseconds. -/
def Minute : Int := 60 * 1000000000

/-- The constant `time.Hour`, in nanoseconds. -/
def Hour : Int := 60 * Minute

/-- The dynamic values that `ECSCache` stores in its cache: pointers to the
outputs of the upstream calls (possibly nil pointers) and, for `DescribeTasks`,
the address `&task` of a loop variable, which is never nil. -/
inductive Value where
  | DescribeClustersOutput (p : Option ecs.DescribeClustersOutput)
  | ListServicesOutput (p : Option ecs.ListServicesOutput)
  | Task (t : types.Task)
  | ListTagsForResourceOutput (p : Option ecs.ListTagsForResourceOutput)
deriving DecidableEq, Repr

/-- What one upstream call returns: the pair `(*Output, error)`. -/
abbrev Response (Out : Type) := Option Out × Option GoError

/-- The struct `ECSCache`.  The upstream `client` is passed to each method as
the function that answers the call the method makes; the logger is left out. -/
structure ECSCache where
  cache : Cache String Value

/-- The observable effect of one method call of `ECSCache`: the cache after the
call, the upstream calls made (their inputs, in order), and what was returned,
`none` when the call ended in a runtime panic. -/
structure Result (In Out : Type) where
  cache : Cache String Value
  calls : List In
  ret : Option (Response Out)

/-- The constructor `NewECSCache`. -/
def NewECSCache : ECSCache :=
  { cache := New [.WithDefaultExpiration (15 * Minute), .WithJanitor (30 * Minute),
      .WithGetReturnStale] }

/-- The method `ECSCache.DescribeClusters`.  The lookup reads the clock at `now`,
the store after the upstream call at `now2`. -/
def ECSCache.DescribeClusters (ec : ECSCache) (now now2 : Int)
    (upstream : ecs.DescribeClustersInput → Response ecs.DescribeClustersOutput)
    (params : ecs.DescribeClustersInput) :
    Result ecs.DescribeClustersInput ecs.DescribeClustersOutput :=
  match ec.cache.Get now "DescribeClusters" with
  | (cached, true) =>
    match cached with
    | some (.DescribeClustersOutput p) => { cache := ec.cache, calls := [], ret := some (p, none) }
    | _ => { cache := ec.cache, calls := [], ret := none }
  | (cached, false) =>
    let (v, err) := upstream params
    if err ≠ none ∧ cached ≠ none then
      match cached with
      | some (.DescribeClustersOutput p) =>
        { cache := ec.cache, calls := [params], ret := some (p, none) }
      | _ => { cache := ec.cache, calls := [params], ret := none }
    else
      { cache := ec.cache.Set now2 "DescribeClusters" (some (.DescribeClustersOutput v)) Hour,
        calls := [params], ret := some (v, err) }

/-- The method `ECSCache.ListServices`. -/
def ECSCache.ListServices (ec : ECSCache) (now now2 : Int)
    (upstream : ecs.ListServicesInput → Response ecs.ListServicesOutput)
    (params : ecs.ListServicesInput) : Result ecs.ListServicesInput ecs.ListServicesOutput :=
  match params.Cluster with
  | none => { cache := ec.cache, calls := [], ret := none }
  | some cluster =>
    match ec.cache.Get now ("ListServices-" ++ cluster) with
    | (cached, true) =>
      match cached with
      | some (.ListServicesOutput p) => { cache := ec.cache, calls := [], ret := some (p, none) }
      | _ => { cache := ec.cache, calls := [], ret := none }
    | (cached, false) =>
      let (v, err) := upstream params
      if err ≠ none then
        if cached ≠ none then
          match cached with
          | some (.ListServicesOutput p) =>
            { cache := ec.cache, calls := [params], ret := some (p, none) }
          | _ => { cache := ec.cache, calls := [params], ret := none }
        else { cache := ec.cache, calls := [params], ret := some (v, err) }
      else
        { cache := ec.cache.Set now2 ("ListServices-" ++ cluster) (some (.ListServicesOutput v))
            (5 * Minute),
          calls := [params], ret := some (v, none) }

/-- The method `ECSCache.ListTasks`: not cached. -/
def ECSCache.ListTasks (ec : ECSCache)
    (upstream : ecs.ListTasksInput → Response ecs.ListTasksOutput)
    (params : ecs.ListTasksInput) : Result ecs.ListTasksInput ecs.ListTasksOutput :=
  { cache := ec.cache, calls := [params], ret := some (upstream params) }

/-- The first loop of `ECSCache.DescribeTasks`: one `Get` per requested ARN; a
hit whose value is a `*types.Task` is appended to `cachedTasks`, any other hit
is stepped over, a miss is appended to `uncachedTasks`.  On every hit the debug
log evaluates `*params.Cluster`, which panics when `Cluster` is nil: `none`. -/
def ECSCache.splitTasks (ec : ECSCache) (now : Int) (cluster : Option String)
    (tasks : List String) : Option (List types.Task × List String) :=
  tasks.foldl
    (fun acc task =>
      match acc with
      | none => none
      | some acc =>
        match ec.cache.Get now ("DescribeTasks-" ++ task) with
        | (v, true) =>
          match cluster with
          | none => none
          | some _ =>
            match v with
            | some (.Task t) => some (acc.1 ++ [t], acc.2)
            | _ => some acc
        | (_, false) => some (acc.1, acc.2 ++ [task]))
    (some ([], []))

/-- The second loop of `ECSCache.DescribeTasks`: the pointer `&task` is stored
under the ARN of each task of the response for one minute.  With a loop
variable per iteration (`perIteration`, Go 1.22 and later) the pointer leads to
that task; with one variable shared by all iterations every stored pointer
leads to the same variable, which holds the last task of the response once the
loop is over. -/
def ECSCache.storeTasks (perIteration : Bool) (c : Cache String Value) (now2 : Int)
    (tasks : List types.Task) : Cache String Value :=
  tasks.foldl
    (fun c task =>
      c.Set now2 ("DescribeTasks-" ++ task.TaskArn)
        (some (.Task (if perIteration then task else tasks.getLast?.getD task))) Minute) c

/-- The method `ECSCache.DescribeTasks`; `params` is a pointer that may be nil,
`perIteration` is the loop-variable semantics of the language version. -/
def ECSCache.DescribeTasks (ec : ECSCache) (perIteration : Bool) (now now2 : Int)
    (upstream : ecs.DescribeTasksInput → Response ecs.DescribeTasksOutput)
    (params : Option ecs.DescribeTasksInput) :
    Result ecs.DescribeTasksInput ecs.DescribeTasksOutput :=
  let split : Option (List types.Task × List String) :=
    match params with
    | some { Cluster := cluster, Tasks := some tasks } => ec.splitTasks now cluster tasks
    | _ => some ([], [])
  match split with
  | none => { cache := ec.cache, calls := [], ret := none }
  | some (cachedTasks, uncachedTasks) =>
    if uncachedTasks.length = 0 then
      { cache := ec.cache, calls := [], ret := some (some { Tasks := cachedTasks }, none) }
    else
      let params1 : ecs.DescribeTasksInput :=
        match params with
        | some p => p
        | none => { Cluster := none, Tasks := none }
      let params2 : ecs.DescribeTasksInput := { params1 with Tasks := some uncachedTasks }
      match upstream params2 with
      | (response, some err) =>
        { cache := ec.cache, calls := [params2], ret := some (response, some err) }
      | (none, none) => { cache := ec.cache, calls := [params2], ret := none }
      | (some response, none) =>
        { cache := ECSCache.storeTasks perIteration ec.cache now2 response.Tasks,
          calls := [params2],
          ret := some (some { response with Tasks := response.Tasks ++ cachedTasks }, none) }

/-- The method `ECSCache.ListTagsForResource`. -/
def ECSCache.ListTagsForResource (ec : ECSCache) (now now2 : Int)
    (upstream : ecs.ListTagsForResourceInput → Response ecs.ListTagsForResourceOutput)
    (params : ecs.ListTagsForResourceInput) :
    Result ecs.ListTagsForResourceInput ecs.ListTagsForResourceOutput :=
  match params.ResourceArn with
  | none => { cache := ec.cache, calls := [], ret := none }
  | some arn =>
    match ec.cache.Get now ("ListTagsForResource-" ++ arn) with
    | (cached, true) =>
      match cached with
      | some (.ListTagsForResourceOutput p) =>
        { cache := ec.cache, calls := [], ret := some (p, none) }
      | _ => { cache := ec.cache, calls := [], ret := none }
    | (cached, false) =>
      let (v, err) := upstream params
      if err ≠ none then
        if cached ≠ none then
          match cached with
          | some (.ListTagsForResourceOutput p) =>
            { cache := ec.cache, calls := [params], ret := some (p, none) }
          | _ => { cache := ec.cache, calls := [params], ret := none }
        else { cache := ec.cache, calls := [params], ret := some (v, err) }
      else
        { cache := ec.cache.SetDefault now2 ("ListTagsForResource-" ++ arn)
            (some (.ListTagsForResourceOutput v)),
          calls := [params], ret := some (v, none) }

end client

/-! ## internal/discovery/scrape.go -/

namespace model

/-- The type `model.LabelSet` of prometheus/common: a Go map from label names to
label values. -/
abbrev LabelSet := AList (fun _ : String => String)

/-- The method `LabelSet.Merge` of prometheus/common: a new set with the labels
of `l` and of `other`; on a name that both carry, the value of `other` wins. -/
def LabelSet.Merge (l other : LabelSet) : LabelSet := AList.union other l

/-- The constant `model.MetaLabelPrefix`. -/
def MetaLabelPrefix : String := "__meta_"

/-- The constant `model.AddressLabel`. -/
def AddressLabel : String := "__address__"

end model

namespace targetgroup

/-- The struct `targetgroup.Group` of prometheus. -/
structure Group where
  Targets : List model.LabelSet
  Labels : model.LabelSet
  Source : String
deriving DecidableEq

end targetgroup

namespace discovery

open client

def labelEcsPrefix : String := model.MetaLabelPrefix ++ "ecs_"

def labelEcsServiceTagPrefix : String := labelEcsPrefix ++ "service_tag_"

def labelClusterName : String := labelEcsPrefix ++ "cluster_name"

def labelServiceName : String := labelEcsPrefix ++ "service_name"

def labelTaskID : String := labelEcsPrefix ++ "task_id"

/-- The character class of the regular expression `valid`, `[^a-zA-Z0-9_]`. -/
def validClass (c : Char) : Bool := !(c.isLower || c.isUpper || c.isDigit || c == '_')

/-- The call `valid.ReplaceAllString(s, "_")`: every match of the one-character
pattern is replaced by an underscore. -/
def validReplaceAll (s : List Char) : List Char :=
  s.map fun c => if validClass c then '_' else c

/-- The call `separator.ReplaceAllString(s, "${1}_${2}")` for the pattern
`([a-z])([A-Z])`: the matches are searched from left to right and do not
overlap; after a match the search resumes behind it. -/
def separatorReplaceAll : List Char → List Char
  | [] => []
  | [a] => [a]
  | a :: b :: rest =>
    if a.isLower && b.isUpper then a :: '_' :: b :: separatorReplaceAll rest
    else a :: separatorReplaceAll (b :: rest)

/-- The function `strings.ToLower` on the strings it meets here, which hold
ASCII characters only: the letters `A` to `Z` are mapped to `a` to `z`. -/
def ToLower (s : List Char) : List Char := s.map Char.toLower

/-- The function `strings.LastIndex(s, sep)` for a one-character separator, `-1`
when `sep` does not occur.  Positions count code points; the separator used
here is ASCII, so the slice taken at the position is the same string as with
byte positions. -/
def LastIndex : List Char → Char → Int
  | [], _ => -1
  | c :: cs, sep =>
    let r := LastIndex cs sep
    if r ≥ 0 then r + 1 else if c = sep then 0 else -1

/-- The slice expression `s[strings.LastIndex(s, "/")+1:]`. -/
def afterLastSlash (s : String) : String :=
  String.mk (s.data.drop (LastIndex s.data '/' + 1).toNat)

/-- The function `getTag`. -/
def getTag : List types.Tag → String → String
  | [], _ => ""
  | tag :: tags, key => if tag.Key = key then tag.Value else getTag tags key

/-- The label name that `tagsToLabelSet` derives from one tag key. -/
def tagLabelName (tagKey : String) : String :=
  let key := validReplaceAll tagKey.data
  let key := separatorReplaceAll key
  let key := ToLower key
  labelEcsServiceTagPrefix ++ String.mk key

/-- The function `tagsToLabelSet`. -/
def tagsToLabelSet (tags : List types.Tag) : model.LabelSet :=
  tags.foldl (fun labels tag => labels.insert (tagLabelName tag.Key) tag.Value) ∅

/-- The capability interface `client.ECS` as seen by the aggregator: five
operations on a client with state `σ`, each returning the next state and the
pair `(*Output, error)`. -/
structure ECS (σ : Type) where
  DescribeClusters : σ → ecs.DescribeClustersInput → σ × Response ecs.DescribeClustersOutput
  ListServices : σ → ecs.ListServicesInput → σ × Response ecs.ListServicesOutput
  ListTasks : σ → ecs.ListTasksInput → σ × Response ecs.ListTasksOutput
  DescribeTasks : σ → ecs.DescribeTasksInput → σ × Response ecs.DescribeTasksOutput
  ListTagsForResource :
    σ → ecs.ListTagsForResourceInput → σ × Response ecs.ListTagsForResourceOutput

/-- The struct `Discovery`, without the listen address and the logger. -/
structure Discovery (σ : Type) where
  client : ECS σ
  clusters : List String

/-- How the body of a loop of `buildScrapeConfig` ends: it goes on with the
groups collected so far, returns an error from the function, or panics on a nil
output. -/
inductive Step where
  | next (tgs : List targetgroup.Group)
  | fail (err : GoError)
  | panicked

/-- The body of the loop over `tasks.Tasks`: the group appended for one task,
`none` when the task is skipped with `continue`. -/
def taskGroup (clusterName serviceName : String) (tags : List types.Tag) (metricsPort : String)
    (task : types.Task) : Option targetgroup.Group :=
  match task.Containers with
  | [] => none
  | container0 :: _ =>
    match container0.NetworkInterfaces with
    | [] => none
    | networkInterface0 :: _ =>
      if task.HealthStatus ≠ types.HealthStatusHealthy then none
      else
        match networkInterface0.PrivateIpv4Address with
        | none => none
        | some ip =>
          let taskArn := task.TaskArn
          let taskID := afterLastSlash taskArn
          some {
            Source := clusterName ++ "/" ++ serviceName
            Labels := (tagsToLabelSet tags).Merge
              (((∅ : model.LabelSet).insert labelClusterName clusterName).insert
                labelServiceName serviceName |>.insert labelTaskID taskID)
            Targets := [AList.singleton model.AddressLabel (ip ++ ":" ++ metricsPort)] }

/-- The loop over `tasks.Tasks`. -/
def taskLoop (clusterName serviceName : String) (tags : List types.Tag) (metricsPort : String)
    (tgs : List targetgroup.Group) (tasks : List types.Task) : List targetgroup.Group :=
  tasks.foldl
    (fun tgs task =>
      match taskGroup clusterName serviceName tags metricsPort task with
      | none => tgs
      | some tg => tgs ++ [tg])
    tgs

/-- The body of the loop over `services.ServiceArns`. -/
def serviceBody {σ : Type} (d : Discovery σ) (clusterName : String) (clusterArn : Option String)
    (st : σ) (tgs : List targetgroup.Group) (service : String) : σ × Step :=
  let serviceName := afterLastSlash service
  match d.client.ListTasks st { Cluster := clusterArn, ServiceName := some service } with
  | (st, _, some err) =>
    (st, .fail (.wrap ("listing ECS tasks failed: cluster=" ++ clusterName ++ ", service="
      ++ serviceName ++ ", ") err))
  | (st, none, none) => (st, .panicked)
  | (st, some taskList, none) =>
    match d.client.DescribeTasks st { Cluster := clusterArn, Tasks := taskList.TaskArns } with
    | (st, _, some err) =>
      (st, .fail (.wrap ("describing tasks failed: cluster=" ++ clusterName ++ ", service="
        ++ serviceName ++ ", ") err))
    | (st, tasks, none) =>
      match d.client.ListTagsForResource st { ResourceArn := some service } with
      | (st, _, some err) =>
        (st, .fail (.wrap ("listing ECS tags failed: cluster=" ++ clusterName ++ ", service="
          ++ serviceName ++ ", ") err))
      | (st, none, none) => (st, .panicked)
      | (st, some tags, none) =>
        let metricsPort := getTag tags.Tags "metrics_port"
        let metricsPort := if metricsPort = "" then "80" else metricsPort
        match tasks with
        | none => (st, .panicked)
        | some tasks =>
          (st, .next (taskLoop clusterName serviceName tags.Tags metricsPort tgs tasks.Tasks))

/-- The loop over `services.ServiceArns`. -/
def serviceLoop {σ : Type} (d : Discovery σ) (clusterName : String) (clusterArn : Option String) :
    σ → List targetgroup.Group → List String → σ × Step
  | st, tgs, [] => (st, .next tgs)
  | st, tgs, service :: services =>
    match serviceBody d clusterName clusterArn st tgs service with
    | (st, .next tgs) => serviceLoop d clusterName clusterArn st tgs services
    | (st, .fail err) => (st, .fail err)
    | (st, .panicked) => (st, .panicked)

/-- The body of the loop over `clusters.Clusters`. -/
def clusterBody {σ : Type} (d : Discovery σ) (st : σ) (tgs : List targetgroup.Group)
    (cluster : types.Cluster) : σ × Step :=
  let clusterName := cluster.ClusterName
  let clusterArn := cluster.ClusterArn
  match d.client.ListServices st { Cluster := clusterArn } with
  | (st, _, some err) =>
    (st, .fail (.wrap ("listing ECS services failed: cluster=" ++ clusterName ++ ", ") err))
  | (st, none, none) => (st, .panicked)
  | (st, some services, none) => serviceLoop d clusterName clusterArn st tgs services.ServiceArns

/-- The loop over `clusters.Clusters`. -/
def clusterLoop {σ : Type} (d : Discovery σ) :
    σ → List targetgroup.Group → List types.Cluster → σ × Step
  | st, tgs, [] => (st, .next tgs)
  | st, tgs, cluster :: clusters =>
    match clusterBody d st tgs cluster with
    | (st, .next tgs) => clusterLoop d st tgs clusters
    | (st, .fail err) => (st, .fail err)
    | (st, .panicked) => (st, .panicked)

/-- The verb `%v` of `fmt` applied to a slice of strings. -/
def fmtStrings (xs : List String) : String := "[" ++ " ".intercalate xs ++ "]"

/-- The method `Discovery.buildScrapeConfig`, from client state `st`: the client
state after the pass and the returned pair (a slice of groups that is `none`
when nil, and the error), or `none` when the pass panics. -/
def Discovery.buildScrapeConfig {σ : Type} (d : Discovery σ) (st : σ) :
    σ × Option (Option (List targetgroup.Group) × Option GoError) :=
  match d.client.DescribeClusters st { Clusters := d.clusters } with
  | (st, _, some err) =>
    (st, some (none, some (.wrap ("describe clusters failed: clusters=" ++ fmtStrings d.clusters
      ++ ", ") err)))
  | (st, none, none) => (st, none)
  | (st, some clusters, none) =>
    if clusters.Clusters.length = 0 then
      (st, some (some [], some (.mk ("no valid clusters found: clusters="
        ++ fmtStrings d.clusters))))
    else
      match clusterLoop d st [] clusters.Clusters with
      | (st, .next tgs) => (st, some (some tgs, none))
      | (st, .fail err) => (st, some (none, some err))
      | (st, .panicked) => (st, none)

end discovery

/-! ## Operations that may run between a `Set` and a later read -/

namespace cache

/-- One operation on a cache that may run between two reads. -/
inductive Op (K V : Type) where
  | Set (now : Int) (key : K) (value : Option V) (duration : Int)
  | Delete (key : K)
  | janitorTick (now : Int)

variable {K V : Type} [DecidableEq K]

/-- The cache after one operation. -/
def Op.apply (c : Cache K V) : Op K V → Cache K V
  | .Set now key value duration => c.Set now key value duration
  | .Delete key => c.Delete key
  | .janitorTick now => c.janitorTick now

/-- An operation leaves `key` alone up to time `t` when it is a `Set` or a
`Delete` of another key, or a janitor tick at a time not after `t`. -/
def Op.leaves (key : K) (t : Int) : Op K V → Prop
  | .Set _ k _ _ => k ≠ key
  | .Delete k => k ≠ key
  | .janitorTick now => now ≤ t

/-- An operation does not write `key` when it is a `Set` or a `Delete` of
another key, or a janitor tick (at any time). -/
def Op.keeps (key : K) : Op K V → Prop
  | .Set _ k _ _ => k ≠ key
  | .Delete k => k ≠ key
  | .janitorTick _ => True

/-- The cache after a sequence of operations. -/
def run (c : Cache K V) (ops : List (Op K V)) : Cache K V := ops.foldl Op.apply c

end cache

/-! ## The cached client: notions used by the statements -/

namespace client

open cache

/-- An entry is fresh at `now` when the store holds it and it is not expired. -/
def hasFresh (ec : ECSCache) (now : Int) (key : String) : Bool :=
  match ec.cache.items.lookup key with
  | some it => !it.expired now
  | none => false

/-- The task held by a fresh entry under the key of `arn`, if there is one. -/
def cachedTask (ec : ECSCache) (now : Int) (arn : String) : Option types.Task :=
  match ec.cache.items.lookup ("DescribeTasks-" ++ arn) with
  | some it =>
    if it.expired now then none
    else
      match it.data with
      | some (.Task t) => some t
      | _ => none
  | none => none

/-- The ARNs that a `DescribeTasks` request carries. -/
def requested : Option ecs.DescribeTasksInput → List String
  | some { Cluster := _, Tasks := some tasks } => tasks
  | _ => []

/-- The debug log of a cache hit panics: the request names no cluster and some
requested ARN has a fresh entry. -/
def hitPanics (ec : ECSCache) (now : Int) (params : Option ecs.DescribeTasksInput) : Bool :=
  (params.bind fun p => p.Cluster).isNone &&
    (requested params).any fun arn => hasFresh ec now ("DescribeTasks-" ++ arn)

/-- Modelled from the spec: the `go` directive of `go.mod`, which is not under
the sources and decides whether the variable of a `for ... range` loop is per
iteration.  The specification says of describe-tasks that it "stores each
returned task individually under its own ARN key", which is the behaviour of
per-iteration loop variables (Go 1.22 and later). -/
def goPerIterationLoopVar : Bool := true

/-- The requested ARNs that have no fresh entry, in request order. -/
def uncached (ec : ECSCache) (now : Int) (tasks : List String) : List String :=
  tasks.filter (fun arn => !hasFresh ec now ("DescribeTasks-" ++ arn))

/-- The input that `DescribeTasks` hands to the upstream: the cluster of the
request and the ARNs without a fresh entry. -/
def upstreamInput (ec : ECSCache) (now : Int) (params : Option ecs.DescribeTasksInput) :
    ecs.DescribeTasksInput :=
  { Cluster := params.bind (fun p => p.Cluster), Tasks := some (uncached ec now (requested params)) }

/-- A cache as `NewECSCache` builds it, holding an output of `ListServices` for
cluster `c1` that expired at time 400. -/
def staleServices : ECSCache :=
  { cache := NewECSCache.cache.Set 100 "ListServices-c1"
      (some (.ListServicesOutput (some { ServiceArns := ["svc/a"] }))) 300 }

/-- A cache as `NewECSCache` builds it, holding the task `task/1`, fresh until
time 60000000100. -/
def oneTaskCached : ECSCache :=
  { cache := NewECSCache.cache.Set 100 "DescribeTasks-task/1"
      (some (.Task { TaskArn := "task/1", HealthStatus := "HEALTHY", Containers := [] }))
      Minute }

/-- An upstream that answers every `DescribeTasks` call with the task `task/2`. -/
def upstreamTask2 : ecs.DescribeTasksInput → Response ecs.DescribeTasksOutput :=
  fun _ => (some { Tasks := [{ TaskArn := "task/2", HealthStatus := "UNKNOWN",
                               Containers := [] }] }, none)

/-- An upstream that answers every `DescribeTasks` call with the two tasks
`task/2` and `task/3`. -/
def upstreamTasks23 : ecs.DescribeTasksInput → Response ecs.DescribeTasksOutput :=
  fun _ => (some { Tasks := [{ TaskArn := "task/2", HealthStatus := "UNKNOWN",
                               Containers := [] },
                             { TaskArn := "task/3", HealthStatus := "HEALTHY",
                               Containers := [] }] }, none)

/-- An upstream whose `DescribeTasks` call fails. -/
def upstreamDown : ecs.DescribeTasksInput → Response ecs.DescribeTasksOutput :=
  fun _ => (none, some (.mk "unreachable"))

end client

/-! ## The aggregator: reference definitions taken from the specification -/

namespace discovery

/-- Eligibility as the specification words it: the health status is exactly
`HEALTHY` and some container has some network interface with a non-null
private IPv4 address. -/
def eligibleAny (task : types.Task) : Bool :=
  decide (task.HealthStatus = "HEALTHY") &&
    task.Containers.any fun c => c.NetworkInterfaces.any fun ni => ni.PrivateIpv4Address.isSome

/-- Eligibility as the code tests it: the health status is exactly `HEALTHY`
and the first network interface of the first container has a non-null private
IPv4 address. -/
def eligibleFirst (task : types.Task) : Bool :=
  decide (task.HealthStatus = "HEALTHY") &&
    match task.Containers with
    | [] => false
    | c :: _ =>
      match c.NetworkInterfaces with
      | [] => false
      | ni :: _ => ni.PrivateIpv4Address.isSome

/-- The private IPv4 address that the code reads from a task. -/
def firstAddress (task : types.Task) : Option String :=
  match task.Containers with
  | [] => none
  | c :: _ =>
    match c.NetworkInterfaces with
    | [] => none
    | ni :: _ => ni.PrivateIpv4Address

/-- The three fixed labels of a target group. -/
def fixedLabels (clusterName serviceName taskID : String) : model.LabelSet :=
  (((∅ : model.LabelSet).insert labelClusterName clusterName).insert
    labelServiceName serviceName).insert labelTaskID taskID

namespace reference

/-- The characters of `[a-zA-Z0-9_]`. -/
def allowed (c : Char) : Bool :=
  ('a' ≤ c && c ≤ 'z') || ('A' ≤ c && c ≤ 'Z') || ('0' ≤ c && c ≤ '9') || c == '_'

/-- Step (a): every character outside `[a-zA-Z0-9_]` is replaced by `_`. -/
def replaceInvalid (s : List Char) : List Char :=
  s.map fun c => if allowed c then c else '_'

/-- Step (b): an underscore is put between every lowercase letter and the
uppercase letter that immediately follows it. -/
def splitCamel : List Char → List Char
  | [] => []
  | [a] => [a]
  | a :: b :: rest =>
    if a.isLower && b.isUpper then a :: '_' :: splitCamel (b :: rest)
    else a :: splitCamel (b :: rest)

/-- Steps (a) to (d): the label name of a tag key. -/
def labelName (tagKey : String) : String :=
  "__meta_ecs_service_tag_" ++ String.mk ((splitCamel (replaceInvalid tagKey.data)).map Char.toLower)

/-- The value that a tag list gives to a label name: the value of the last tag
whose key derives that name. -/
def labelValue (name : String) : List types.Tag → Option String
  | [] => none
  | tag :: tags =>
    match labelValue name tags with
    | some v => some v
    | none => if labelName tag.Key = name then some tag.Value else none

end reference

/-- A healthy task whose first container has no network interface and whose
second container has one, with a private address. -/
def taskSecondContainer : types.Task :=
  { TaskArn := "arn:aws:ecs:eu-west-1:1:task/prod/0a1b", HealthStatus := "HEALTHY",
    Containers := [{ NetworkInterfaces := [] },
      { NetworkInterfaces := [{ PrivateIpv4Address := some "10.0.0.5" }] }] }

/-- A stateless client with one cluster `prod`, one service `web` and the one
task `taskSecondContainer`. -/
def clientSecondContainer : ECS Unit :=
  { DescribeClusters := fun st _ =>
      (st, some { Clusters := [{ ClusterName := "prod", ClusterArn := some "cluster/prod" }] },
        none)
    ListServices := fun st _ => (st, some { ServiceArns := ["service/prod/web"] }, none)
    ListTasks := fun st _ =>
      (st, some { TaskArns := some ["arn:aws:ecs:eu-west-1:1:task/prod/0a1b"] }, none)
    DescribeTasks := fun st _ => (st, some { Tasks := [taskSecondContainer] }, none)
    ListTagsForResource := fun st _ => (st, some { Tags := [] }, none) }

/-- A healthy task with an address on the first interface of its first
container. -/
def taskPublished : types.Task :=
  { TaskArn := "arn:aws:ecs:eu-west-1:1:task/prod/0a1b", HealthStatus := "HEALTHY",
    Containers := [{ NetworkInterfaces := [{ PrivateIpv4Address := some "10.0.0.5" }] }] }

/-- A stateless client with one cluster `prod`, one service `web` without tags
and the one task `taskPublished`. -/
def clientPublished : ECS Unit :=
  { DescribeClusters := fun st _ =>
      (st, some { Clusters := [{ ClusterName := "prod", ClusterArn := some "cluster/prod" }] },
        none)
    ListServices := fun st _ => (st, some { ServiceArns := ["service/prod/web"] }, none)
    ListTasks := fun st _ =>
      (st, some { TaskArns := some ["arn:aws:ecs:eu-west-1:1:task/prod/0a1b"] }, none)
    DescribeTasks := fun st _ => (st, some { Tasks := [taskPublished] }, none)
    ListTagsForResource := fun st _ => (st, some { Tags := [] }, none) }

end discovery

/-! ## The cached client: example upstreams -/

namespace client

/-- An upstream whose `DescribeClusters` call succeeds with the cluster `prod`. -/
def upstreamClusters : ecs.DescribeClustersInput → Response ecs.DescribeClustersOutput :=
  fun _ => (some { Clusters := [{ ClusterName := "prod", ClusterArn := some "cluster/prod" }] },
    none)

/-- An upstream whose `ListServices` call succeeds with the service `svc/a`. -/
def upstreamServices : ecs.ListServicesInput → Response ecs.ListServicesOutput :=
  fun _ => (some { ServiceArns := ["svc/a"] }, none)

/-- The cached client after the cache of `ec` has gone through `ops`. -/
def ECSCache.after (c : cache.Cache String Value) (ops : List (cache.Op String Value)) :
    ECSCache :=
  { cache := cache.run c ops }

end client

/-! ## The aggregator: port, call traces and the HTTP handler -/

namespace discovery

open client

/-- The port that `buildScrapeConfig` derives from the tags of a service:
`getTag(tags.Tags, "metrics_port")`, replaced by `"80"` when it is empty. -/
def metricsPortOf (tags : List types.Tag) : String :=
  let metricsPort := getTag tags "metrics_port"
  if metricsPort = "" then "80" else metricsPort

/-- A call made on the client, with its input. -/
inductive Call where
  | DescribeClusters (params : ecs.DescribeClustersInput)
  | ListServices (params : ecs.ListServicesInput)
  | ListTasks (params : ecs.ListTasksInput)
  | DescribeTasks (params : ecs.DescribeTasksInput)
  | ListTagsForResource (params : ecs.ListTagsForResourceInput)
deriving DecidableEq, Repr

/-- The calls made on a client so far, oldest first, each with the error that
it returned. -/
abbrev Trace := List (Call × Option GoError)

/-- A client that behaves as `c` and records every call in a trace. -/
def traced {σ : Type} (c : ECS σ) : ECS (σ × Trace) :=
  { DescribeClusters := fun st params =>
      let r := c.DescribeClusters st.1 params
      ((r.1, st.2 ++ [(Call.DescribeClusters params, r.2.2)]), r.2)
    ListServices := fun st params =>
      let r := c.ListServices st.1 params
      ((r.1, st.2 ++ [(Call.ListServices params, r.2.2)]), r.2)
    ListTasks := fun st params =>
      let r := c.ListTasks st.1 params
      ((r.1, st.2 ++ [(Call.ListTasks params, r.2.2)]), r.2)
    DescribeTasks := fun st params =>
      let r := c.DescribeTasks st.1 params
      ((r.1, st.2 ++ [(Call.DescribeTasks params, r.2.2)]), r.2)
    ListTagsForResource := fun st params =>
      let r := c.ListTagsForResource st.1 params
      ((r.1, st.2 ++ [(Call.ListTagsForResource params, r.2.2)]), r.2) }

/-- No call of the trace returned an error. -/
def Clean (tr : Trace) : Prop := ∀ p ∈ tr, p.2 = none

/-- The last call of the trace returned an error, no earlier call did, and
`err` wraps that error. -/
def Aborted (tr : Trace) (err : GoError) : Prop :=
  ∃ tr0 call e msg, tr = tr0 ++ [(call, some e)] ∧ Clean tr0 ∧ err = .wrap msg e

/-- The trace fits the way a loop body ended. -/
def StepOk (tr : Trace) : Step → Prop
  | .next _ => Clean tr
  | .fail err => Aborted tr err
  | .panicked => Clean tr

/-- The call `json.MarshalIndent(scrapConfig, "", "  ")` of the Go standard
library on a slice of groups: a nil slice encodes as the JSON value `null`, an
empty slice as `[]`, any other slice as the array of its encoded elements.
The encoding of one group (`MarshalJSON` of prometheus, indented) is the
parameter `encodeGroup`; `none` is an encoding error. -/
def MarshalIndent (encodeGroup : targetgroup.Group → Option String) :
    Option (List targetgroup.Group) → Option String
  | none => some "null"
  | some [] => some "[]"
  | some (g :: gs) =>
    match (g :: gs).mapM encodeGroup with
    | none => none
    | some parts => some ("[\n  " ++ ",\n  ".intercalate parts ++ "\n]")

/-- The method `Discovery.writeScrapeConfig`: the body written to the response,
`none` when the aggregation pass panics.  The error of the pass is logged and
otherwise ignored. -/
def Discovery.writeScrapeConfig {σ : Type} (encodeGroup : targetgroup.Group → Option String)
    (d : Discovery σ) (st : σ) : σ × Option String :=
  match d.buildScrapeConfig st with
  | (st, none) => (st, none)
  | (st, some (scrapConfig, _)) =>
    match MarshalIndent encodeGroup scrapConfig with
    | none => (st, some "[]")
    | some jsonBytes => (st, some jsonBytes)

/-- A stateless client as `clientPublished`, whose service carries the tag
`metrics_port` with an empty value. -/
def clientEmptyPort : ECS Unit :=
  { clientPublished with
    ListTagsForResource := fun st _ =>
      (st, some { Tags := [{ Key := "metrics_port", Value := "" }] }, none) }

/-- A stateless client whose `DescribeClusters` call fails. -/
def clientDown : ECS Unit :=
  { clientPublished with
    DescribeClusters := fun st _ => (st, none, some (.mk "RequestError: send request failed")) }

/-- A stateless client whose `DescribeClusters` call resolves no cluster. -/
def clientNoCluster : ECS Unit :=
  { clientPublished with DescribeClusters := fun st _ => (st, some { Clusters := [] }, none) }

/-- A stateless client as `clientPublished`, whose `ListTasks` call fails. -/
def clientTasksDown : ECS Unit :=
  { clientPublished with ListTasks := fun st _ => (st, none, some (.mk "ThrottlingException")) }

end discovery

/-! ## Facts about the cache -/

namespace cache

variable {K V : Type} [DecidableEq K]

theorem wrapInt64_of_range (x : Int) (h1 : -2 ^ 63 ≤ x) (h2 : x < 2 ^ 63) : wrapInt64 x = x := by
  unfold wrapInt64
  have e63 : (2 : Int) ^ 63 = 9223372036854775808 := by norm_num
  have e64 : (2 : Int) ^ 64 = 18446744073709551616 := by norm_num
  rw [e63] at h1 h2 ⊢
  rw [e64]
  omega

theorem Get_of_lookup (c : Cache K V) (now : Int) (key : K) (it : item V)
    (h : c.items.lookup key = some it) :
    c.Get now key =
      if it.expired now then (if c.returnStale then (it.data, false) else (none, false))
      else (it.data, true) := by
  simp [Cache.Get, h]

theorem Get_of_lookup_none (c : Cache K V) (now : Int) (key : K)
    (h : c.items.lookup key = none) : c.Get now key = (none, false) := by
  simp [Cache.Get, h]

theorem lookup_Set_self (c : Cache K V) (now : Int) (key : K) (value : Option V) (d : Int) :
    (c.Set now key value d).items.lookup key =
      some { data := value, expires := if d > 0 then wrapInt64 (now + d) else 0 } := by
  simp [Cache.Set]

theorem lookup_Set_ne (c : Cache K V) (now : Int) (key k : K) (value : Option V) (d : Int)
    (h : k ≠ key) : (c.Set now k value d).items.lookup key = c.items.lookup key := by
  simp [Cache.Set, AList.lookup_insert_ne (Ne.symm h)]

theorem lookup_Delete_ne (c : Cache K V) (key k : K) (h : k ≠ key) :
    (c.Delete k).items.lookup key = c.items.lookup key := by
  simp [Cache.Delete, AList.lookup_erase_ne (Ne.symm h)]

/-- The janitor loop over any list of entries: a key is gone afterwards when
the list holds an expired entry for it, and keeps its binding otherwise. -/
theorem lookup_foldl_erase (now : Int) (key : K) (es : List (Sigma fun _ : K => item V))
    (s : AList (fun _ : K => item V)) :
    (List.foldl
      (fun (s : AList (fun _ : K => item V)) (e : Sigma fun _ : K => item V) =>
        if e.2.expired now then s.erase e.1 else s) s es).lookup key =
      if ∃ e ∈ es, e.1 = key ∧ e.2.expired now = true then none else s.lookup key := by
  induction es generalizing s with
  | nil => simp
  | cons e es ih =>
    rw [List.foldl_cons, ih]
    by_cases hex : ∃ e1 ∈ es, e1.1 = key ∧ e1.2.expired now = true
    · have : ∃ e1 ∈ e :: es, e1.1 = key ∧ e1.2.expired now = true := by
        obtain ⟨e1, h1, h2⟩ := hex
        exact ⟨e1, List.mem_cons_of_mem _ h1, h2⟩
      simp only [hex, this, if_true]
    · simp only [hex, if_false]
      by_cases he : e.2.expired now = true
      · by_cases hk : e.1 = key
        · have : ∃ e1 ∈ e :: es, e1.1 = key ∧ e1.2.expired now = true :=
            ⟨e, List.mem_cons_self _ _, hk, he⟩
          simp only [this, if_true, he]
          rw [← hk]
          exact AList.lookup_erase e.1 s
        · have : ¬ ∃ e1 ∈ e :: es, e1.1 = key ∧ e1.2.expired now = true := by
            rintro ⟨e1, h1, h2, h3⟩
            rcases List.mem_cons.mp h1 with h | h
            · exact hk (h ▸ h2)
            · exact hex ⟨e1, h, h2, h3⟩
          simp only [this, if_false, he, if_true]
          exact AList.lookup_erase_ne (Ne.symm hk)
      · have : ¬ ∃ e1 ∈ e :: es, e1.1 = key ∧ e1.2.expired now = true := by
          rintro ⟨e1, h1, h2, h3⟩
          rcases List.mem_cons.mp h1 with h | h
          · exact he (h ▸ h3)
          · exact hex ⟨e1, h, h2, h3⟩
        simp only [this, if_false, he]
        rfl

/-- A janitor tick keeps exactly the bindings that are not expired. -/
theorem lookup_janitorTick (c : Cache K V) (now : Int) (key : K) :
    (c.janitorTick now).items.lookup key =
      (c.items.lookup key).filter (fun it => !it.expired now) := by
  unfold Cache.janitorTick
  simp only
  rw [lookup_foldl_erase]
  cases hl : c.items.lookup key with
  | none =>
    have : ¬ ∃ e ∈ c.items.entries, e.1 = key ∧ e.2.expired now = true := by
      rintro ⟨⟨k, it⟩, h1, h2, _⟩
      simp only at h2
      subst h2
      have := AList.mem_lookup_iff.mpr h1
      rw [hl] at this
      exact Option.noConfusion this
    simp [this]
  | some it =>
    have hmem : (⟨key, it⟩ : Sigma fun _ : K => item V) ∈ c.items.entries :=
      AList.mem_lookup_iff.mp hl
    by_cases he : it.expired now = true
    · have : ∃ e ∈ c.items.entries, e.1 = key ∧ e.2.expired now = true :=
        ⟨⟨key, it⟩, hmem, rfl, he⟩
      simp [this, Option.filter, he]
    · have : ¬ ∃ e ∈ c.items.entries, e.1 = key ∧ e.2.expired now = true := by
        rintro ⟨⟨k, it1⟩, h1, h2, h3⟩
        simp only at h2
        subst h2
        have h4 := AList.mem_lookup_iff.mpr h1
        rw [hl] at h4
        cases h4
        exact he h3
      simp [this, Option.filter, he]

theorem returnStale_apply (c : Cache K V) (op : Op K V) :
    (op.apply c).returnStale = c.returnStale := by
  cases op <;> rfl

theorem returnStale_run (c : Cache K V) (ops : List (Op K V)) :
    (run c ops).returnStale = c.returnStale := by
  induction ops generalizing c with
  | nil => rfl
  | cons op ops ih => simp only [run, List.foldl_cons] at ih ⊢; rw [ih, returnStale_apply]

/-- A binding that is not expired at any of the janitor ticks of a sequence of
operations, none of which writes its key, is still there afterwards. -/
theorem lookup_run (key : K) (it : item V) (ops : List (Op K V)) (c : Cache K V)
    (hit : c.items.lookup key = some it)
    (hops : ∀ op ∈ ops, op.keeps key ∧ ∀ now, op = .janitorTick now → it.expired now = false) :
    (run c ops).items.lookup key = some it := by
  induction ops generalizing c with
  | nil => exact hit
  | cons op ops ih =>
    simp only [run, List.foldl_cons]
    apply ih
    · have h := hops op (List.mem_cons_self _ _)
      cases op with
      | Set now k value d =>
        have hk : k ≠ key := h.1
        simp only [Op.apply]
        rw [lookup_Set_ne _ _ _ _ _ _ hk]
        exact hit
      | Delete k =>
        have hk : k ≠ key := h.1
        simp only [Op.apply]
        rw [lookup_Delete_ne _ _ _ hk]
        exact hit
      | janitorTick now =>
        simp only [Op.apply]
        rw [lookup_janitorTick, hit]
        simp [Option.filter, h.2 now rfl]
    · intro op1 h1
      exact hops op1 (List.mem_cons_of_mem _ h1)

end cache

namespace cache

/-- A live entry of the iterated list is handed to the callback of `Range`,
unless the callback has stopped the iteration by returning false. -/
theorem rangeLoop_visits {K V : Type} (now : Int) (f : K → Option V → Bool)
    (es : List (Sigma fun _ : K => item V)) (e : Sigma fun _ : K => item V)
    (he : e ∈ es) (hlive : e.2.expired now = false) :
    (e.1, e.2.data) ∈ rangeLoop now f es ∨ ∃ p ∈ rangeLoop now f es, f p.1 p.2 = false := by
  induction es with
  | nil => cases he
  | cons e1 es ih =>
    rcases List.mem_cons.mp he with h | h
    · subst h
      by_cases hf : f e.1 e.2.data = true
      · left
        simp [rangeLoop, hlive, hf]
      · right
        refine ⟨(e.1, e.2.data), ?_, ?_⟩
        · simp [rangeLoop, hlive, hf]
        · simpa using hf
    · by_cases hx : e1.2.expired now = true
      · simpa [rangeLoop, hx] using ih h
      · by_cases hf : f e1.1 e1.2.data = true
        · rcases ih h with h1 | ⟨p, hp, hfp⟩
          · left
            simp only [rangeLoop, hx, hf, if_true]
            exact List.mem_cons_of_mem _ h1
          · right
            refine ⟨p, ?_, hfp⟩
            simp only [rangeLoop, hx, hf, if_true]
            exact List.mem_cons_of_mem _ hp
        · right
          refine ⟨(e1.1, e1.2.data), ?_, ?_⟩
          · simp [rangeLoop, hx, hf]
          · simpa using hf

variable {K V : Type} [DecidableEq K]

theorem expired_false_of_le (it : item V) (now : Int) (h : now ≤ it.expires) :
    it.expired now = false := by
  simp only [item.expired, Bool.and_eq_false_imp, decide_eq_true_eq, decide_eq_false_iff_not]
  intro _
  omega

theorem expired_false_of_nonpos (it : item V) (now : Int) (h : it.expires ≤ 0) :
    it.expired now = false := by
  simp only [item.expired, Bool.and_eq_false_imp, decide_eq_true_eq, decide_eq_false_iff_not]
  intro h1
  omega

theorem expired_true_of_lt (it : item V) (now : Int) (h0 : 0 < it.expires)
    (h : it.expires < now) : it.expired now = true := by
  simp only [item.expired, Bool.and_eq_true, decide_eq_true_eq]
  exact ⟨h0, h⟩

/-- C8: a value set with a duration `d > 0` at time `t0`, where `t0 + d` is a
positive instant that fits the `int64` of `UnixNano`, is read back as
`(value, true)` at every time `t` with `t0 ≤ t ≤ t0 + d`, whatever the cache
held before the `Set` (an earlier entry of the key is overwritten: the stored
entry is `value` with expiry `t0 + d`), with stale-return enabled or not, and
whatever later operations ran that leave the key alone (`Set` and `Delete` of
other keys, janitor ticks up to `t`). -/
theorem Get_fresh_after_Set (c : Cache K V) (key : K) (value : Option V) (d t0 t : Int)
    (ops : List (Op K V)) (hd : d > 0) (hpos : 0 < t0 + d) (hrep : t0 + d < 2 ^ 63)
    (_h0 : t0 ≤ t) (h1 : t ≤ t0 + d) (hops : ∀ op ∈ ops, op.leaves key t) :
    (c.Set t0 key value d).items.lookup key = some { data := value, expires := t0 + d } ∧
      (run (c.Set t0 key value d) ops).Get t key = (value, true) := by
  have hw : wrapInt64 (t0 + d) = t0 + d :=
    wrapInt64_of_range _ (le_trans (by norm_num) (le_of_lt hpos)) hrep
  have hset : (c.Set t0 key value d).items.lookup key =
      some { data := value, expires := t0 + d } := by
    rw [lookup_Set_self, if_pos hd, hw]
  refine ⟨hset, ?_⟩
  have hrun := lookup_run key { data := value, expires := t0 + d } ops
    (c.Set t0 key value d) hset (by
      intro op hop
      have h := hops op hop
      cases op with
      | Set now k v dd => exact ⟨h, fun _ hh => by cases hh⟩
      | Delete k => exact ⟨h, fun _ hh => by cases hh⟩
      | janitorTick now =>
        refine ⟨trivial, fun n hh => ?_⟩
        cases hh
        have h2 : now ≤ t := h
        exact expired_false_of_le _ _ (le_trans h2 h1))
  rw [Get_of_lookup _ _ _ _ hrun, expired_false_of_le _ _ h1]
  simp

/-- The statement of C8 at a concrete cache: set at 100 for 10, read at 105. -/
theorem Get_fresh_after_Set_witness :
    (run ((New [] : Cache String Nat).Set 100 "k" (some 7) 10)
      [.Set 101 "j" (some 1) 5, .janitorTick 103, .Delete "j"]).Get 105 "k" = (some 7, true) :=
  (Get_fresh_after_Set (New []) "k" (some 7) 10 100 105
    [.Set 101 "j" (some 1) 5, .janitorTick 103, .Delete "j"]
    (by decide) (by decide) (by decide) (by decide) (by decide)
    (by
      intro op hop
      simp only [List.mem_cons, List.mem_singleton, List.not_mem_nil, or_false] at hop
      rcases hop with rfl | rfl | rfl
      · show "j" ≠ "k"
        decide
      · show (103 : Int) ≤ 105
        decide
      · show "j" ≠ "k"
        decide)).2

/-- C9: the three-state read.  On a clock as `time.Now().UnixNano()` gives it
(the `Set` reads `t0 ≥ 0`, the `Get` reads an `int64`, `t < 2 ^ 63`), a value
set with duration `d > 0` at time `t0` and not swept or deleted since is read
at every time `t > t0 + d` as `(nil, false)` when stale-return is disabled and
as `(value, false)` when it is enabled, whatever the cache held before the
`Set`; a key without an entry is read as `(nil, false)` in both
configurations. -/
theorem Get_expired_after_Set (c : Cache K V) (key : K) (value : Option V) (d t0 t : Int)
    (ops : List (Op K V)) (hd : d > 0) (h0 : 0 ≤ t0) (ht : t > t0 + d) (hrep : t < 2 ^ 63)
    (hops : ∀ op ∈ ops, op.leaves key (t0 + d)) :
    (c.returnStale = false → (run (c.Set t0 key value d) ops).Get t key = (none, false)) ∧
      (c.returnStale = true → (run (c.Set t0 key value d) ops).Get t key = (value, false)) ∧
      (∀ (c1 : Cache K V) (k : K) (t1 : Int),
        c1.items.lookup k = none → c1.Get t1 k = (none, false)) := by
  have hpos : 0 < t0 + d := by omega
  have hw : wrapInt64 (t0 + d) = t0 + d :=
    wrapInt64_of_range _ (le_trans (by norm_num) (le_of_lt hpos)) (lt_trans ht hrep)
  have hset : (c.Set t0 key value d).items.lookup key =
      some { data := value, expires := t0 + d } := by
    rw [lookup_Set_self, if_pos hd, hw]
  have hrun := lookup_run key { data := value, expires := t0 + d } ops
    (c.Set t0 key value d) hset (by
      intro op hop
      have h := hops op hop
      cases op with
      | Set now k v dd => exact ⟨h, fun _ hh => by cases hh⟩
      | Delete k => exact ⟨h, fun _ hh => by cases hh⟩
      | janitorTick now =>
        refine ⟨trivial, fun n hh => ?_⟩
        cases hh
        exact expired_false_of_le _ _ h)
  have hst : (run (c.Set t0 key value d) ops).returnStale = c.returnStale := by
    rw [returnStale_run]
    rfl
  have hx : ({ data := value, expires := t0 + d } : item V).expired t = true :=
    expired_true_of_lt _ _ hpos ht
  refine ⟨fun hs => ?_, fun hs => ?_, fun c1 k t1 h => Get_of_lookup_none c1 t1 k h⟩
  · rw [Get_of_lookup _ _ _ _ hrun, hx, hst, hs]
    simp
  · rw [Get_of_lookup _ _ _ _ hrun, hx, hst, hs]
    simp

/-- The statement of C9 at a concrete cache: set at 100 for 10, read at 111,
with stale-return enabled and disabled. -/
theorem Get_expired_after_Set_witness :
    ((run ((New [.WithGetReturnStale] : Cache String Nat).Set 100 "k" (some 7) 10)
        [.janitorTick 110, .Delete "j"]).Get 111 "k" = (some 7, false)) ∧
      ((run ((New [] : Cache String Nat).Set 100 "k" (some 7) 10)
        [.janitorTick 110, .Delete "j"]).Get 111 "k" = (none, false)) :=
  ⟨(Get_expired_after_Set (New [.WithGetReturnStale]) "k" (some 7) 10 100 111
      [.janitorTick 110, .Delete "j"] (by decide) (by decide) (by decide) (by decide)
      (by
        intro op hop
        simp only [List.mem_cons, List.mem_singleton, List.not_mem_nil, or_false] at hop
        rcases hop with rfl | rfl
        · show (110 : Int) ≤ 100 + 10
          decide
        · show "j" ≠ "k"
          decide)).2.1 rfl,
    (Get_expired_after_Set (New []) "k" (some 7) 10 100 111
      [.janitorTick 110, .Delete "j"] (by decide) (by decide) (by decide) (by decide)
      (by
        intro op hop
        simp only [List.mem_cons, List.mem_singleton, List.not_mem_nil, or_false] at hop
        rcases hop with rfl | rfl
        · show (110 : Int) ≤ 100 + 10
          decide
        · show "j" ≠ "k"
          decide)).1 rfl⟩

/-- C10: a value set with a duration `d ≤ 0` (zero included) never expires: as
long as the key is not overwritten or deleted and the cache is not closed
(other keys may be set and deleted, the janitor may tick at any time), every
`Get` of the key, at any time, returns `(value, true)`; `Range`, at any time
and for any callback, hands the entry to the callback unless the callback has
stopped the iteration before by returning false; and a janitor tick at any
time leaves the entry in the store. -/
theorem Set_nonpositive_never_expires (c : Cache K V) (key : K) (value : Option V) (d t0 : Int)
    (ops : List (Op K V)) (hd : d ≤ 0) (hops : ∀ op ∈ ops, op.keeps key) :
    (∀ t, (run (c.Set t0 key value d) ops).Get t key = (value, true)) ∧
      (∀ t f, (key, value) ∈ (run (c.Set t0 key value d) ops).Range t f ∨
        ∃ p ∈ (run (c.Set t0 key value d) ops).Range t f, f p.1 p.2 = false) ∧
      (∀ t, ((run (c.Set t0 key value d) ops).janitorTick t).items.lookup key =
        some { data := value, expires := 0 }) := by
  have hset : (c.Set t0 key value d).items.lookup key =
      some { data := value, expires := 0 } := by
    rw [lookup_Set_self, if_neg (not_lt.mpr hd)]
  have hrun := lookup_run key { data := value, expires := 0 } ops
    (c.Set t0 key value d) hset (by
      intro op hop
      exact ⟨hops op hop, fun now _ => expired_false_of_nonpos _ _ (le_refl _)⟩)
  have hlive : ∀ t, ({ data := value, expires := 0 } : item V).expired t = false :=
    fun t => expired_false_of_nonpos _ _ (le_refl _)
  refine ⟨fun t => ?_, fun t f => ?_, fun t => ?_⟩
  · rw [Get_of_lookup _ _ _ _ hrun, hlive]
    simp
  · have hmem := AList.mem_lookup_iff.mp hrun
    exact rangeLoop_visits t f _ ⟨key, { data := value, expires := 0 }⟩ hmem (hlive t)
  · rw [lookup_janitorTick, hrun]
    simp [Option.filter, hlive]

/-- The statement of C10 at a concrete cache: set with duration 0, read much
later. -/
theorem Set_nonpositive_never_expires_witness :
    (run ((New [] : Cache String Nat).Set 100 "k" (some 7) 0)
      [.janitorTick 5000, .Set 6000 "j" (some 1) 5]).Get 9000 "k" = (some 7, true) :=
  (Set_nonpositive_never_expires (New []) "k" (some 7) 0 100
    [.janitorTick 5000, .Set 6000 "j" (some 1) 5] (by decide)
    (by
      intro op hop
      simp only [List.mem_cons, List.mem_singleton, List.not_mem_nil, or_false] at hop
      rcases hop with rfl | rfl
      · exact trivial
      · show "j" ≠ "k"
        decide)).1 9000

end cache

/-! ## Facts about the cached client -/

namespace client

open cache

theorem Get_snd (ec : ECSCache) (now : Int) (key : String) :
    (ec.cache.Get now key).2 = hasFresh ec now key := by
  unfold Cache.Get hasFresh
  cases h : ec.cache.items.lookup key with
  | none => rfl
  | some it =>
    simp only
    by_cases hx : it.expired now = true
    · by_cases hs : ec.cache.returnStale = true <;> simp [hx, hs]
    · simp [hx]

theorem splitTasks_step (ec : ECSCache) (now : Int) (cluster : Option String) (task : String)
    (acc : List types.Task × List String) :
    (match ec.cache.Get now ("DescribeTasks-" ++ task) with
      | (v, true) =>
        match cluster with
        | none => none
        | some _ =>
          match v with
          | some (.Task t) => some (acc.1 ++ [t], acc.2)
          | _ => some acc
      | (_, false) => some (acc.1, acc.2 ++ [task])) =
      if cluster.isNone && hasFresh ec now ("DescribeTasks-" ++ task) then none
      else some (acc.1 ++ (cachedTask ec now task).toList,
        acc.2 ++ (if hasFresh ec now ("DescribeTasks-" ++ task) then [] else [task])) := by
  unfold Cache.Get hasFresh cachedTask
  cases h : ec.cache.items.lookup ("DescribeTasks-" ++ task) with
  | none => cases cluster <;> simp
  | some it =>
    by_cases hx : it.expired now = true
    · by_cases hs : ec.cache.returnStale = true <;> cases cluster <;> simp [hx, hs]
    · rcases it with ⟨data, expires⟩
      simp only [Bool.not_eq_true] at hx
      rcases data with _ | v
      · cases cluster <;> simp [hx]
      · cases v <;> cases cluster <;> simp [hx]

theorem splitTasks_foldl_none (ec : ECSCache) (now : Int) (cluster : Option String)
    (tasks : List String) :
    tasks.foldl
      (fun (acc : Option (List types.Task × List String)) task =>
        match acc with
        | none => none
        | some acc =>
          match ec.cache.Get now ("DescribeTasks-" ++ task) with
          | (v, true) =>
            match cluster with
            | none => none
            | some _ =>
              match v with
              | some (.Task t) => some (acc.1 ++ [t], acc.2)
              | _ => some acc
          | (_, false) => some (acc.1, acc.2 ++ [task])) none = none := by
  induction tasks with
  | nil => rfl
  | cons task tasks ih => rw [List.foldl_cons]; exact ih

theorem splitTasks_foldl (ec : ECSCache) (now : Int) (cluster : Option String)
    (tasks : List String) (acc : List types.Task × List String) :
    tasks.foldl
      (fun (acc : Option (List types.Task × List String)) task =>
        match acc with
        | none => none
        | some acc =>
          match ec.cache.Get now ("DescribeTasks-" ++ task) with
          | (v, true) =>
            match cluster with
            | none => none
            | some _ =>
              match v with
              | some (.Task t) => some (acc.1 ++ [t], acc.2)
              | _ => some acc
          | (_, false) => some (acc.1, acc.2 ++ [task])) (some acc) =
      if cluster.isNone && tasks.any (fun arn => hasFresh ec now ("DescribeTasks-" ++ arn))
      then none
      else some (acc.1 ++ tasks.filterMap (cachedTask ec now),
        acc.2 ++ tasks.filter (fun arn => !hasFresh ec now ("DescribeTasks-" ++ arn))) := by
  induction tasks generalizing acc with
  | nil => simp
  | cons task tasks ih =>
    rw [List.foldl_cons]
    simp only
    rw [splitTasks_step]
    by_cases hp : (cluster.isNone && hasFresh ec now ("DescribeTasks-" ++ task)) = true
    · rw [if_pos hp, splitTasks_foldl_none]
      simp only [Bool.and_eq_true] at hp
      simp [List.any_cons, hp.1, hp.2]
    · rw [if_neg hp, ih]
      cases hc : cachedTask ec now task <;>
        cases hf : hasFresh ec now ("DescribeTasks-" ++ task) <;>
        cases hn : cluster.isNone <;>
        simp [List.filterMap_cons, List.filter_cons, List.any_cons, hc, hf, hn] at hp ⊢

/-- The first loop of `DescribeTasks` panics when the request names no cluster
and some requested ARN is a hit; otherwise it splits the request into the
tasks of the fresh entries and the ARNs without a fresh entry, both in request
order. -/
theorem splitTasks_eq (ec : ECSCache) (now : Int) (cluster : Option String)
    (tasks : List String) :
    ec.splitTasks now cluster tasks =
      if cluster.isNone && tasks.any (fun arn => hasFresh ec now ("DescribeTasks-" ++ arn))
      then none
      else some (tasks.filterMap (cachedTask ec now),
        tasks.filter (fun arn => !hasFresh ec now ("DescribeTasks-" ++ arn))) := by
  unfold ECSCache.splitTasks
  rw [splitTasks_foldl]
  simp

theorem Get_stale (ec : ECSCache) (now : Int) (key : String) (data : Option Value)
    (expires : Int) (hs : ec.cache.returnStale = true)
    (hl : ec.cache.items.lookup key = some { data := data, expires := expires })
    (h0 : expires > 0) (h1 : now > expires) : ec.cache.Get now key = (data, false) := by
  rw [Get_of_lookup _ _ _ _ hl, expired_true_of_lt _ _ h0 h1, hs]
  simp

theorem DescribeClusters_stale (ec : ECSCache) (now now2 : Int)
    (upstream : ecs.DescribeClustersInput → Response ecs.DescribeClustersOutput)
    (params : ecs.DescribeClustersInput) (p v : Option ecs.DescribeClustersOutput)
    (expires : Int) (err : GoError) (hs : ec.cache.returnStale = true)
    (hl : ec.cache.items.lookup "DescribeClusters" =
      some { data := some (.DescribeClustersOutput p), expires := expires })
    (h0 : expires > 0) (h1 : now > expires) (hup : upstream params = (v, some err)) :
    (ec.DescribeClusters now now2 upstream params).ret = some (p, none) := by
  unfold ECSCache.DescribeClusters
  rw [Get_stale ec now _ _ _ hs hl h0 h1]
  simp [hup]

theorem DescribeClusters_absent (ec : ECSCache) (now now2 : Int)
    (upstream : ecs.DescribeClustersInput → Response ecs.DescribeClustersOutput)
    (params : ecs.DescribeClustersInput) (v : Option ecs.DescribeClustersOutput)
    (err : GoError) (hl : ec.cache.items.lookup "DescribeClusters" = none)
    (hup : upstream params = (v, some err)) :
    (ec.DescribeClusters now now2 upstream params).ret = some (v, some err) := by
  unfold ECSCache.DescribeClusters
  rw [Get_of_lookup_none _ _ _ hl]
  simp [hup]

theorem ListServices_stale (ec : ECSCache) (now now2 : Int)
    (upstream : ecs.ListServicesInput → Response ecs.ListServicesOutput)
    (cluster : String) (p v : Option ecs.ListServicesOutput)
    (expires : Int) (err : GoError) (hs : ec.cache.returnStale = true)
    (hl : ec.cache.items.lookup ("ListServices-" ++ cluster) =
      some { data := some (.ListServicesOutput p), expires := expires })
    (h0 : expires > 0) (h1 : now > expires)
    (hup : upstream { Cluster := some cluster } = (v, some err)) :
    (ec.ListServices now now2 upstream { Cluster := some cluster }).ret = some (p, none) := by
  unfold ECSCache.ListServices
  simp only
  rw [Get_stale ec now _ _ _ hs hl h0 h1]
  simp [hup]

theorem ListServices_absent (ec : ECSCache) (now now2 : Int)
    (upstream : ecs.ListServicesInput → Response ecs.ListServicesOutput)
    (cluster : String) (v : Option ecs.ListServicesOutput) (err : GoError)
    (hl : ec.cache.items.lookup ("ListServices-" ++ cluster) = none)
    (hup : upstream { Cluster := some cluster } = (v, some err)) :
    (ec.ListServices now now2 upstream { Cluster := some cluster }).ret = some (v, some err) ∧
      (ec.ListServices now now2 upstream { Cluster := some cluster }).cache = ec.cache := by
  unfold ECSCache.ListServices
  simp only
  rw [Get_of_lookup_none _ _ _ hl]
  simp [hup]

theorem ListTagsForResource_stale (ec : ECSCache) (now now2 : Int)
    (upstream : ecs.ListTagsForResourceInput → Response ecs.ListTagsForResourceOutput)
    (arn : String) (p v : Option ecs.ListTagsForResourceOutput)
    (expires : Int) (err : GoError) (hs : ec.cache.returnStale = true)
    (hl : ec.cache.items.lookup ("ListTagsForResource-" ++ arn) =
      some { data := some (.ListTagsForResourceOutput p), expires := expires })
    (h0 : expires > 0) (h1 : now > expires)
    (hup : upstream { ResourceArn := some arn } = (v, some err)) :
    (ec.ListTagsForResource now now2 upstream { ResourceArn := some arn }).ret
      = some (p, none) := by
  unfold ECSCache.ListTagsForResource
  simp only
  rw [Get_stale ec now _ _ _ hs hl h0 h1]
  simp [hup]

theorem ListTagsForResource_absent (ec : ECSCache) (now now2 : Int)
    (upstream : ecs.ListTagsForResourceInput → Response ecs.ListTagsForResourceOutput)
    (arn : String) (v : Option ecs.ListTagsForResourceOutput) (err : GoError)
    (hl : ec.cache.items.lookup ("ListTagsForResource-" ++ arn) = none)
    (hup : upstream { ResourceArn := some arn } = (v, some err)) :
    (ec.ListTagsForResource now now2 upstream { ResourceArn := some arn }).ret
        = some (v, some err) ∧
      (ec.ListTagsForResource now now2 upstream { ResourceArn := some arn }).cache
        = ec.cache := by
  unfold ECSCache.ListTagsForResource
  simp only
  rw [Get_of_lookup_none _ _ _ hl]
  simp [hup]

/-- C1: stale fallback.  For each of `DescribeClusters`, `ListServices` and
`ListTagsForResource` of a cache that returns stale values (as `NewECSCache`
configures it): when the store holds under the key of the operation an expired
entry with the output `p` and the upstream call fails, the operation returns
`p` with a nil error; when the store holds no entry under that key and the
upstream call fails with `err`, the operation returns `err`. -/
theorem stale_fallback (ec : ECSCache) (now now2 expires : Int) (err : GoError)
    (hs : ec.cache.returnStale = true) (h0 : expires > 0) (h1 : now > expires) :
    (∀ upstream params p v,
        ec.cache.items.lookup "DescribeClusters" =
          some { data := some (.DescribeClustersOutput p), expires := expires } →
        upstream params = (v, some err) →
        (ec.DescribeClusters now now2 upstream params).ret = some (p, none)) ∧
      (∀ upstream params v,
        ec.cache.items.lookup "DescribeClusters" = none →
        upstream params = (v, some err) →
        (ec.DescribeClusters now now2 upstream params).ret = some (v, some err)) ∧
      (∀ upstream cluster p v,
        ec.cache.items.lookup ("ListServices-" ++ cluster) =
          some { data := some (.ListServicesOutput p), expires := expires } →
        upstream { Cluster := some cluster } = (v, some err) →
        (ec.ListServices now now2 upstream { Cluster := some cluster }).ret = some (p, none)) ∧
      (∀ upstream cluster v,
        ec.cache.items.lookup ("ListServices-" ++ cluster) = none →
        upstream { Cluster := some cluster } = (v, some err) →
        (ec.ListServices now now2 upstream { Cluster := some cluster }).ret
          = some (v, some err)) ∧
      (∀ upstream arn p v,
        ec.cache.items.lookup ("ListTagsForResource-" ++ arn) =
          some { data := some (.ListTagsForResourceOutput p), expires := expires } →
        upstream { ResourceArn := some arn } = (v, some err) →
        (ec.ListTagsForResource now now2 upstream { ResourceArn := some arn }).ret
          = some (p, none)) ∧
      (∀ upstream arn v,
        ec.cache.items.lookup ("ListTagsForResource-" ++ arn) = none →
        upstream { ResourceArn := some arn } = (v, some err) →
        (ec.ListTagsForResource now now2 upstream { ResourceArn := some arn }).ret
          = some (v, some err)) :=
  ⟨fun upstream params p v hl hup =>
      DescribeClusters_stale ec now now2 upstream params p v expires err hs hl h0 h1 hup,
    fun upstream params v hl hup =>
      DescribeClusters_absent ec now now2 upstream params v err hl hup,
    fun upstream cluster p v hl hup =>
      ListServices_stale ec now now2 upstream cluster p v expires err hs hl h0 h1 hup,
    fun upstream cluster v hl hup =>
      (ListServices_absent ec now now2 upstream cluster v err hl hup).1,
    fun upstream arn p v hl hup =>
      ListTagsForResource_stale ec now now2 upstream arn p v expires err hs hl h0 h1 hup,
    fun upstream arn v hl hup =>
      (ListTagsForResource_absent ec now now2 upstream arn v err hl hup).1⟩

/-- The statement of C1 at a concrete cache: `ListServices` with a stale entry
for cluster `c1` and none for cluster `c2`, the upstream failing. -/
theorem stale_fallback_witness :
    (staleServices.ListServices 500 501 (fun _ => (none, some (.mk "throttled")))
        { Cluster := some "c1" }).ret = some (some { ServiceArns := ["svc/a"] }, none) ∧
      (staleServices.ListServices 500 501 (fun _ => (none, some (.mk "throttled")))
        { Cluster := some "c2" }).ret = some (none, some (.mk "throttled")) :=
  ⟨(stale_fallback staleServices 500 501 400 (.mk "throttled") (by decide) (by decide)
      (by decide)).2.2.1 (fun _ => (none, some (.mk "throttled"))) "c1"
      (some { ServiceArns := ["svc/a"] }) none (by decide) rfl,
    (stale_fallback staleServices 500 501 400 (.mk "throttled") (by decide) (by decide)
      (by decide)).2.2.2.1 (fun _ => (none, some (.mk "throttled"))) "c2" none
      (by decide) rfl⟩

/-- C2, for `DescribeClusters`: on an empty cache, a failing upstream call
still stores its nil output under the key `DescribeClusters` for one hour, and
a following call, with the upstream still failing, is a cache hit that returns
a nil output with a nil error and makes no upstream call. -/
theorem DescribeClusters_caches_failure :
    (NewECSCache.DescribeClusters 1000 1001 (fun _ => (none, some (.mk "throttled")))
        { Clusters := ["prod"] }).ret = some (none, some (.mk "throttled")) ∧
      NewECSCache.cache.items.lookup "DescribeClusters" = none ∧
      (NewECSCache.DescribeClusters 1000 1001 (fun _ => (none, some (.mk "throttled")))
        { Clusters := ["prod"] }).cache.items.lookup "DescribeClusters" =
        some { data := some (.DescribeClustersOutput none), expires := 1001 + Hour } ∧
      (({ cache := (NewECSCache.DescribeClusters 1000 1001
          (fun _ => (none, some (.mk "throttled"))) { Clusters := ["prod"] }).cache }
          : ECSCache).DescribeClusters 2000 2001 (fun _ => (none, some (.mk "throttled")))
        { Clusters := ["prod"] }).ret = some (none, none) ∧
      (({ cache := (NewECSCache.DescribeClusters 1000 1001
          (fun _ => (none, some (.mk "throttled"))) { Clusters := ["prod"] }).cache }
          : ECSCache).DescribeClusters 2000 2001 (fun _ => (none, some (.mk "throttled")))
        { Clusters := ["prod"] }).calls = [] := by
  decide

/-- The sibling operations do what C2 says: on an upstream failure without a
cached entry, `ListServices` and `ListTagsForResource` return the error and
leave the cache as it was. -/
theorem siblings_keep_cache_on_failure (ec : ECSCache) (now now2 : Int) (err : GoError) :
    (∀ upstream cluster v,
        ec.cache.items.lookup ("ListServices-" ++ cluster) = none →
        upstream { Cluster := some cluster } = (v, some err) →
        (ec.ListServices now now2 upstream { Cluster := some cluster }).cache = ec.cache) ∧
      (∀ upstream arn v,
        ec.cache.items.lookup ("ListTagsForResource-" ++ arn) = none →
        upstream { ResourceArn := some arn } = (v, some err) →
        (ec.ListTagsForResource now now2 upstream { ResourceArn := some arn }).cache
          = ec.cache) :=
  ⟨fun upstream cluster v hl hup =>
      (ListServices_absent ec now now2 upstream cluster v err hl hup).2,
    fun upstream arn v hl hup =>
      (ListTagsForResource_absent ec now now2 upstream arn v err hl hup).2⟩

theorem hitPanics_false_iff (ec : ECSCache) (now : Int)
    (params : Option ecs.DescribeTasksInput) :
    hitPanics ec now params = false ↔
      ((params.bind fun p => p.Cluster) ≠ none ∨
        ∀ arn ∈ requested params, hasFresh ec now ("DescribeTasks-" ++ arn) = false) := by
  unfold hitPanics
  cases hcl : (params.bind fun p => p.Cluster) with
  | none => simp
  | some c => simp

theorem DescribeTasks_unfold (ec : ECSCache) (perIteration : Bool) (now now2 : Int)
    (upstream : ecs.DescribeTasksInput → Response ecs.DescribeTasksOutput)
    (params : Option ecs.DescribeTasksInput) :
    ec.DescribeTasks perIteration now now2 upstream params =
      if hitPanics ec now params then { cache := ec.cache, calls := [], ret := none }
      else if uncached ec now (requested params) = [] then
        { cache := ec.cache, calls := [],
          ret := some (some { Tasks := (requested params).filterMap (cachedTask ec now) },
            none) }
      else
        match upstream (upstreamInput ec now params) with
        | (response, some err) =>
          { cache := ec.cache, calls := [upstreamInput ec now params],
            ret := some (response, some err) }
        | (none, none) =>
          { cache := ec.cache, calls := [upstreamInput ec now params], ret := none }
        | (some response, none) =>
          { cache := ECSCache.storeTasks perIteration ec.cache now2 response.Tasks,
            calls := [upstreamInput ec now params],
            ret := some (some { Tasks := response.Tasks ++
              (requested params).filterMap (cachedTask ec now) }, none) } := by
  unfold ECSCache.DescribeTasks upstreamInput uncached hitPanics
  rcases params with _ | ⟨cluster, _ | tasks⟩
  · simp [requested]
  · simp [requested]
  · simp only [requested, splitTasks_eq, Option.bind]
    by_cases hp : (cluster.isNone &&
        tasks.any fun arn => hasFresh ec now ("DescribeTasks-" ++ arn)) = true
    · simp only [hp, if_true]
    · simp only [hp, Bool.false_eq_true, if_false, List.length_eq_zero]

/-- The debug log of a cache hit: when the request names no cluster and some
requested ARN has a fresh entry, `DescribeTasks` panics on `*params.Cluster`
before any upstream call and leaves the cache as it was. -/
theorem DescribeTasks_panics (ec : ECSCache) (perIteration : Bool) (now now2 : Int)
    (upstream : ecs.DescribeTasksInput → Response ecs.DescribeTasksOutput)
    (params : Option ecs.DescribeTasksInput) (h : hitPanics ec now params = true) :
    (ec.DescribeTasks perIteration now now2 upstream params).ret = none ∧
      (ec.DescribeTasks perIteration now now2 upstream params).calls = [] ∧
      (ec.DescribeTasks perIteration now now2 upstream params).cache = ec.cache := by
  rw [DescribeTasks_unfold, if_pos h]
  exact ⟨rfl, rfl, rfl⟩

/-- C3: `DescribeTasks` with a mixed ARN list.  For every cache state, every
language version and every request that reaches the upstream (it names its
cluster, as every request of the aggregator does, or none of its ARNs is a
hit, so that the debug log of a hit does not dereference a nil cluster): when
at least one requested ARN has no fresh entry and the upstream call succeeds
with `response`, the upstream is called exactly once, with the requested ARNs
that have no fresh entry, in request order, and the call returns, with a nil
error, the tasks of `response` followed by the task of every requested ARN
that has a fresh entry. -/
theorem DescribeTasks_mixed (ec : ECSCache) (perIteration : Bool) (now now2 : Int)
    (upstream : ecs.DescribeTasksInput → Response ecs.DescribeTasksOutput)
    (cluster : Option String) (tasks : List String) (response : ecs.DescribeTasksOutput)
    (hc : cluster ≠ none ∨ ∀ arn ∈ tasks, hasFresh ec now ("DescribeTasks-" ++ arn) = false)
    (hmiss : ∃ arn ∈ tasks, hasFresh ec now ("DescribeTasks-" ++ arn) = false)
    (hup : upstream { Cluster := cluster, Tasks := some (uncached ec now tasks) }
      = (some response, none)) :
    (ec.DescribeTasks perIteration now now2 upstream
        (some { Cluster := cluster, Tasks := some tasks })).calls
        = [{ Cluster := cluster, Tasks := some (uncached ec now tasks) }] ∧
      (ec.DescribeTasks perIteration now now2 upstream
        (some { Cluster := cluster, Tasks := some tasks })).ret
        = some (some { Tasks := response.Tasks ++ tasks.filterMap (cachedTask ec now) },
            none) := by
  have hne : ¬ uncached ec now tasks = [] := by
    obtain ⟨arn, hmem, hf⟩ := hmiss
    intro h
    have : arn ∈ uncached ec now tasks := List.mem_filter.mpr ⟨hmem, by simp [hf]⟩
    rw [h] at this
    cases this
  have hp : hitPanics ec now (some { Cluster := cluster, Tasks := some tasks }) = false :=
    (hitPanics_false_iff ec now _).mpr hc
  rw [DescribeTasks_unfold, hp]
  simp only [requested, upstreamInput, Option.bind, Bool.false_eq_true, if_false] at hne ⊢
  rw [if_neg hne, hup]
  exact ⟨rfl, rfl⟩

/-- The statement of C3 at a concrete cache: `task/1` is cached, `task/2` is
fetched. -/
theorem DescribeTasks_mixed_witness :
    (oneTaskCached.DescribeTasks true 200 201 upstreamTask2
        (some { Cluster := some "c1", Tasks := some ["task/1", "task/2"] })).calls
        = [{ Cluster := some "c1", Tasks := some ["task/2"] }] ∧
      (oneTaskCached.DescribeTasks true 200 201 upstreamTask2
        (some { Cluster := some "c1", Tasks := some ["task/1", "task/2"] })).ret
        = some (some { Tasks := [
            { TaskArn := "task/2", HealthStatus := "UNKNOWN", Containers := [] },
            { TaskArn := "task/1", HealthStatus := "HEALTHY", Containers := [] }] }, none) :=
  DescribeTasks_mixed oneTaskCached true 200 201 upstreamTask2 (some "c1")
    ["task/1", "task/2"]
    { Tasks := [{ TaskArn := "task/2", HealthStatus := "UNKNOWN", Containers := [] }] }
    (Or.inl (by decide)) ⟨"task/2", by decide, by decide⟩ rfl

/-- C4: `DescribeTasks` calls the upstream if and only if some requested ARN
has no fresh entry, for every cache state, every language version and every
request whose hits can be logged (the request names its cluster, as every
request of the aggregator does, or none of its ARNs is a hit; the nil request,
the nil list and the empty list are of the second kind).  When every requested
ARN has a fresh entry it makes no upstream call, leaves the cache as it was
and returns, with a nil error, the cached tasks in request order.  An entry
that is present but expired counts as not cached, also when the cache returns
stale values: its ARN is sent to the upstream. -/
theorem DescribeTasks_upstream_iff (ec : ECSCache) (perIteration : Bool) (now now2 : Int)
    (upstream : ecs.DescribeTasksInput → Response ecs.DescribeTasksOutput)
    (params : Option ecs.DescribeTasksInput)
    (hc : (params.bind fun p => p.Cluster) ≠ none ∨
      ∀ arn ∈ requested params, hasFresh ec now ("DescribeTasks-" ++ arn) = false) :
    ((ec.DescribeTasks perIteration now now2 upstream params).calls ≠ [] ↔
        ∃ arn ∈ requested params, hasFresh ec now ("DescribeTasks-" ++ arn) = false) ∧
      ((∀ arn ∈ requested params, hasFresh ec now ("DescribeTasks-" ++ arn) = true) →
        (ec.DescribeTasks perIteration now now2 upstream params).calls = [] ∧
        (ec.DescribeTasks perIteration now now2 upstream params).cache = ec.cache ∧
        (ec.DescribeTasks perIteration now now2 upstream params).ret =
          some (some { Tasks := (requested params).filterMap (cachedTask ec now) }, none)) ∧
      (∀ arn ∈ requested params, ∀ it : item Value,
        ec.cache.items.lookup ("DescribeTasks-" ++ arn) = some it →
        it.expires > 0 → now > it.expires →
        ∃ p sent, (ec.DescribeTasks perIteration now now2 upstream params).calls = [p] ∧
          p.Tasks = some sent ∧ arn ∈ sent) := by
  have hp : hitPanics ec now params = false := (hitPanics_false_iff ec now params).mpr hc
  have hunf := DescribeTasks_unfold ec perIteration now now2 upstream params
  rw [hp] at hunf
  simp only [Bool.false_eq_true, if_false] at hunf
  have hiff : uncached ec now (requested params) = [] ↔
      ∀ arn ∈ requested params, hasFresh ec now ("DescribeTasks-" ++ arn) = true := by
    simp [uncached, List.filter_eq_nil_iff]
  have hcalls : ¬ uncached ec now (requested params) = [] →
      (ec.DescribeTasks perIteration now now2 upstream params).calls
        = [upstreamInput ec now params] := by
    intro h
    rw [hunf, if_neg h]
    rcases hu : upstream (upstreamInput ec now params) with ⟨_ | response, _ | err⟩ <;> rfl
  refine ⟨?_, ?_, ?_⟩
  · constructor
    · intro hcl
      by_contra hno
      have hall : ∀ arn ∈ requested params,
          hasFresh ec now ("DescribeTasks-" ++ arn) = true := by
        intro arn hmem
        by_contra hf
        exact hno ⟨arn, hmem, by simpa using hf⟩
      apply hcl
      rw [hunf, if_pos (hiff.mpr hall)]
    · rintro ⟨arn, hmem, hf⟩
      have hne : ¬ uncached ec now (requested params) = [] := by
        intro h
        have := hiff.mp h arn hmem
        rw [hf] at this
        cases this
      rw [hcalls hne]
      simp
  · intro hall
    rw [hunf, if_pos (hiff.mpr hall)]
    exact ⟨rfl, rfl, rfl⟩
  · intro arn hmem it hl h0 h1
    have hf : hasFresh ec now ("DescribeTasks-" ++ arn) = false := by
      simp [hasFresh, hl, expired_true_of_lt it now h0 h1]
    have hin : arn ∈ uncached ec now (requested params) :=
      List.mem_filter.mpr ⟨hmem, by simp [hf]⟩
    have hne : ¬ uncached ec now (requested params) = [] := by
      intro h
      rw [h] at hin
      cases hin
    exact ⟨_, _, hcalls hne, rfl, hin⟩

/-- The statement of C4 at a concrete cache: a fully cached request, and the
same entry once it has expired. -/
theorem DescribeTasks_upstream_iff_witness :
    ((oneTaskCached.DescribeTasks true 200 201 upstreamDown
        (some { Cluster := some "c1", Tasks := some ["task/1", "task/1"] })).calls = [] ∧
      (oneTaskCached.DescribeTasks true 200 201 upstreamDown
        (some { Cluster := some "c1", Tasks := some ["task/1", "task/1"] })).cache
        = oneTaskCached.cache ∧
      (oneTaskCached.DescribeTasks true 200 201 upstreamDown
        (some { Cluster := some "c1", Tasks := some ["task/1", "task/1"] })).ret =
        some (some { Tasks := [
            { TaskArn := "task/1", HealthStatus := "HEALTHY", Containers := [] },
            { TaskArn := "task/1", HealthStatus := "HEALTHY", Containers := [] }] }, none)) ∧
      (∃ p sent,
        (oneTaskCached.DescribeTasks true 70000000000 70000000001 upstreamDown
          (some { Cluster := some "c1", Tasks := some ["task/1"] })).calls = [p] ∧
        p.Tasks = some sent ∧ "task/1" ∈ sent) :=
  ⟨(DescribeTasks_upstream_iff oneTaskCached true 200 201 upstreamDown
      (some { Cluster := some "c1", Tasks := some ["task/1", "task/1"] })
      (Or.inl (by decide))).2.1 (by decide),
    (DescribeTasks_upstream_iff oneTaskCached true 70000000000 70000000001 upstreamDown
      (some { Cluster := some "c1", Tasks := some ["task/1"] })
      (Or.inl (by decide))).2.2 "task/1" (by decide)
      { data := some (.Task { TaskArn := "task/1", HealthStatus := "HEALTHY",
                              Containers := [] }),
        expires := 60000000100 } (by decide) (by decide) (by decide)⟩

end client

/-! ## Facts about the aggregator -/

namespace discovery

theorem upper_not_lower (b : Char) (h : b.isUpper = true) : b.isLower = false := by
  simp only [Char.isUpper, Char.isLower, Bool.and_eq_true, decide_eq_true_eq,
    Bool.and_eq_false_imp] at h ⊢
  intro h1
  have h2 := h.2
  rw [ge_iff_le, UInt32.le_def] at h1
  rw [UInt32.le_def] at h2
  rw [BitVec.le_def] at h1 h2
  have e1 : (UInt32.toBitVec 97).toNat = 97 := by decide
  have e2 : (UInt32.toBitVec 90).toNat = 90 := by decide
  omega

theorem validClass_eq (c : Char) : validClass c = !reference.allowed c := by
  simp only [validClass, reference.allowed, Char.isLower, Char.isUpper, Char.isDigit,
    Char.le_def, ge_iff_le]
  rfl

theorem validReplaceAll_eq (s : List Char) : validReplaceAll s = reference.replaceInvalid s := by
  unfold validReplaceAll reference.replaceInvalid
  apply List.map_congr_left
  intro c _
  rw [validClass_eq]
  cases reference.allowed c <;> rfl

theorem splitCamel_upper (b : Char) (rest : List Char) (h : b.isUpper = true) :
    reference.splitCamel (b :: rest) = b :: reference.splitCamel rest := by
  cases rest with
  | nil => rfl
  | cons c r => simp [reference.splitCamel, upper_not_lower b h]

/-- The non-overlapping, left-to-right matches of `([a-z])([A-Z])` are all the
places where a lowercase letter is immediately followed by an uppercase one. -/
theorem separatorReplaceAll_eq (s : List Char) :
    separatorReplaceAll s = reference.splitCamel s := by
  induction s using separatorReplaceAll.induct with
  | case1 => rfl
  | case2 a => rfl
  | case3 a b rest h ih =>
    have hb : b.isUpper = true := by
      simp only [Bool.and_eq_true] at h
      exact h.2
    rw [separatorReplaceAll, if_pos h, reference.splitCamel, if_pos h, splitCamel_upper b rest hb,
      ih]
  | case4 a b rest h ih =>
    rw [separatorReplaceAll, if_neg h, reference.splitCamel, if_neg h, ih]

theorem tagLabelName_eq (tagKey : String) : tagLabelName tagKey = reference.labelName tagKey := by
  simp only [tagLabelName, reference.labelName, validReplaceAll_eq, separatorReplaceAll_eq,
    ToLower]
  rfl

theorem lookup_foldl_insert (name : String) (tags : List types.Tag) (acc : model.LabelSet) :
    (tags.foldl (fun labels tag => labels.insert (tagLabelName tag.Key) tag.Value) acc).lookup
        name =
      match reference.labelValue name tags with
      | some v => some v
      | none => acc.lookup name := by
  induction tags generalizing acc with
  | nil => rfl
  | cons tag tags ih =>
    rw [List.foldl_cons, ih, reference.labelValue]
    cases hv : reference.labelValue name tags with
    | some v => rfl
    | none =>
      simp only
      by_cases hn : reference.labelName tag.Key = name
      · rw [if_pos hn, tagLabelName_eq, hn]
        simp
      · rw [if_neg hn, tagLabelName_eq]
        simp [AList.lookup_insert_ne (Ne.symm hn)]

/-- C7: the label derivation of `tagsToLabelSet` equals the four-step reference
definition.  The label name derived from a tag key is the prefix
`__meta_ecs_service_tag_` followed by the lowercase of the key in which every
character outside `[a-zA-Z0-9_]` is replaced by `_` and then an underscore is
put at every boundary between a lowercase and a following uppercase letter; the
label set maps each derived name to the unchanged value of the tag that derives
it (of the last such tag when several derive the same name), and holds no
other label.  `Metrics-Port` gives `__meta_ecs_service_tag_metrics_port` and
`CamelCaseKey` gives `__meta_ecs_service_tag_camel_case_key`. -/
theorem tagsToLabelSet_refines_reference :
    (∀ tagKey, tagLabelName tagKey = reference.labelName tagKey) ∧
      (∀ tags name, (tagsToLabelSet tags).lookup name = reference.labelValue name tags) ∧
      (∀ key value,
        (tagsToLabelSet [{ Key := key, Value := value }]).lookup (reference.labelName key)
          = some value) ∧
      tagLabelName "Metrics-Port" = "__meta_ecs_service_tag_metrics_port" ∧
      tagLabelName "CamelCaseKey" = "__meta_ecs_service_tag_camel_case_key" ∧
      (tagsToLabelSet [{ Key := "Metrics-Port", Value := "9100" },
          { Key := "CamelCaseKey", Value := "Some Value" }]).entries =
        [⟨"__meta_ecs_service_tag_camel_case_key", "Some Value"⟩,
          ⟨"__meta_ecs_service_tag_metrics_port", "9100"⟩] := by
  refine ⟨tagLabelName_eq, ?_, ?_, by decide, by decide, by decide⟩
  · intro tags name
    unfold tagsToLabelSet
    rw [lookup_foldl_insert]
    cases reference.labelValue name tags <;> rfl
  · intro key value
    unfold tagsToLabelSet
    rw [lookup_foldl_insert]
    simp [reference.labelValue]

theorem taskGroup_isSome (clusterName serviceName : String) (tags : List types.Tag)
    (metricsPort : String) (task : types.Task) :
    (taskGroup clusterName serviceName tags metricsPort task).isSome = eligibleFirst task := by
  unfold taskGroup eligibleFirst types.HealthStatusHealthy
  rcases task with ⟨arn, health, _ | ⟨⟨_ | ⟨⟨_ | ip⟩, nis⟩⟩, cs⟩⟩ <;>
    by_cases hh : health = "HEALTHY" <;> simp [hh]

theorem taskLoop_eq (clusterName serviceName : String) (tags : List types.Tag)
    (metricsPort : String) (tgs : List targetgroup.Group) (tasks : List types.Task) :
    taskLoop clusterName serviceName tags metricsPort tgs tasks =
      tgs ++ tasks.filterMap (taskGroup clusterName serviceName tags metricsPort) := by
  unfold taskLoop
  induction tasks generalizing tgs with
  | nil => simp
  | cons task tasks ih =>
    rw [List.foldl_cons, ih]
    cases h : taskGroup clusterName serviceName tags metricsPort task <;>
      simp [List.filterMap_cons, h]

/-- C5, as stated, fails: a healthy task whose second container carries a
network interface with a private address, while its first container has none,
satisfies the condition of the claim, and no target group is emitted for it:
the loop body skips it and a whole pass over a cluster with this single task
returns no group. -/
theorem eligibility_counterexample :
    eligibleAny taskSecondContainer = true ∧
      taskGroup "prod" "web" [] "80" taskSecondContainer = none ∧
      ({ client := clientSecondContainer, clusters := ["prod"] }
        : Discovery Unit).buildScrapeConfig () = ((), some (some [], none)) := by
  decide

/-- C5, amended: a target group is emitted for a task if and only if its health
status is exactly `HEALTHY` and the first network interface of its first
container exists and carries a non-null private IPv4 address; the task loop
appends the groups of these tasks, in order, and nothing for any other task.
A task that passes this test also passes the test of the claim. -/
theorem eligibility_first_interface (clusterName serviceName : String) (tags : List types.Tag)
    (metricsPort : String) :
    (∀ task, (taskGroup clusterName serviceName tags metricsPort task).isSome
        = eligibleFirst task) ∧
      (∀ tgs tasks, taskLoop clusterName serviceName tags metricsPort tgs tasks =
        tgs ++ tasks.filterMap (taskGroup clusterName serviceName tags metricsPort)) ∧
      (∀ tgs tasks, (taskLoop clusterName serviceName tags metricsPort tgs tasks).length =
        tgs.length + (tasks.filter eligibleFirst).length) ∧
      (∀ task, eligibleFirst task = true → eligibleAny task = true) := by
  refine ⟨taskGroup_isSome clusterName serviceName tags metricsPort,
    taskLoop_eq clusterName serviceName tags metricsPort, ?_, ?_⟩
  · intro tgs tasks
    rw [taskLoop_eq, List.length_append]
    congr 1
    induction tasks with
    | nil => rfl
    | cons task tasks ih =>
      have h := taskGroup_isSome clusterName serviceName tags metricsPort task
      cases hg : taskGroup clusterName serviceName tags metricsPort task with
      | none =>
        rw [hg] at h
        simp [List.filterMap_cons, List.filter_cons, hg, ← h, ih]
      | some g =>
        rw [hg] at h
        simp [List.filterMap_cons, List.filter_cons, hg, ← h, ih]
  · intro task h
    unfold eligibleFirst at h
    unfold eligibleAny
    rcases task with ⟨arn, health, _ | ⟨⟨_ | ⟨⟨_ | ip⟩, nis⟩⟩, cs⟩⟩ <;> simp_all

/-- The amended C5 at a concrete task. -/
theorem eligibility_first_interface_witness :
    eligibleFirst taskPublished = true ∧ eligibleAny taskPublished = true :=
  ⟨by decide, (eligibility_first_interface "prod" "web" [] "80").2.2.2 taskPublished (by decide)⟩

theorem LastIndex_ge (l : List Char) (sep : Char) : -1 ≤ LastIndex l sep := by
  induction l with
  | nil => simp [LastIndex]
  | cons c cs ih =>
    simp only [LastIndex]
    split_ifs <;> omega

theorem LastIndex_neg_iff (l : List Char) (sep : Char) : LastIndex l sep = -1 ↔ sep ∉ l := by
  induction l with
  | nil => simp [LastIndex]
  | cons c cs ih =>
    have hge := LastIndex_ge cs sep
    simp only [LastIndex, List.mem_cons, not_or]
    split_ifs with h1 h2
    · constructor
      · intro h
        omega
      · intro h
        have := ih.mpr h.2
        omega
    · constructor
      · intro h
        exact absurd h (by decide)
      · intro h
        exact absurd h2.symm h.1
    · constructor
      · intro _
        refine ⟨fun h => h2 h.symm, ih.mp (by omega)⟩
      · intro _
        rfl

/-- The slice behind the last separator: it holds no separator, it is the whole
list when the list holds none, and otherwise the list is some prefix, the
separator, and the slice. -/
theorem drop_LastIndex (l : List Char) (sep : Char) :
    sep ∉ l.drop (LastIndex l sep + 1).toNat ∧
      (sep ∉ l → l.drop (LastIndex l sep + 1).toNat = l) ∧
      (sep ∈ l → ∃ pre, l = pre ++ sep :: l.drop (LastIndex l sep + 1).toNat) := by
  induction l with
  | nil => simp [LastIndex]
  | cons c cs ih =>
    have hge := LastIndex_ge cs sep
    have hiff := LastIndex_neg_iff cs sep
    by_cases h1 : LastIndex cs sep ≥ 0
    · have hL : LastIndex (c :: cs) sep = LastIndex cs sep + 1 := by
        simp only [LastIndex, if_pos h1]
      have hd : (c :: cs).drop (LastIndex (c :: cs) sep + 1).toNat =
          cs.drop (LastIndex cs sep + 1).toNat := by
        rw [hL]
        have : (LastIndex cs sep + 1 + 1).toNat = (LastIndex cs sep + 1).toNat + 1 := by omega
        rw [this, List.drop_succ_cons]
      have hmem : sep ∈ cs := by
        by_contra hn
        have := hiff.mpr hn
        omega
      rw [hd]
      refine ⟨ih.1, fun hn => absurd (List.mem_cons_of_mem _ hmem) hn, fun _ => ?_⟩
      obtain ⟨pre, hpre⟩ := ih.2.2 hmem
      exact ⟨c :: pre, by rw [List.cons_append, ← hpre]⟩
    · have hneg : LastIndex cs sep = -1 := by omega
      have hnot : sep ∉ cs := hiff.mp hneg
      by_cases h2 : c = sep
      · have hL : LastIndex (c :: cs) sep = 0 := by
          simp only [LastIndex, if_neg h1, if_pos h2]
        rw [hL]
        refine ⟨by simpa using hnot, fun hn => ?_, fun _ => ⟨[], by simp [h2]⟩⟩
        exact absurd (by simp [h2]) hn
      · have hL : LastIndex (c :: cs) sep = -1 := by
          simp only [LastIndex, if_neg h1, if_neg h2]
        rw [hL]
        simp only [show ((-1 : Int) + 1).toNat = 0 from rfl, List.drop_zero]
        refine ⟨?_, fun _ => trivial, fun hm => ?_⟩
        · simp only [List.mem_cons, not_or]
          exact ⟨fun h => h2 h.symm, hnot⟩
        · rcases List.mem_cons.mp hm with h | h
          · exact absurd h.symm h2
          · exact absurd h hnot

/-- The slice `s[strings.LastIndex(s, "/")+1:]` is the part of `s` after its last
slash: it holds no slash, it is `s` when `s` holds none, and otherwise `s` is
some prefix, a slash, and the slice. -/
theorem afterLastSlash_spec (s : String) :
    '/' ∉ (afterLastSlash s).data ∧
      ('/' ∉ s.data → afterLastSlash s = s) ∧
      ('/' ∈ s.data → ∃ pre : String, s = pre ++ "/" ++ afterLastSlash s) := by
  have h := drop_LastIndex s.data '/'
  refine ⟨h.1, fun hn => ?_, fun hm => ?_⟩
  · unfold afterLastSlash
    rw [h.2.1 hn]
  · obtain ⟨pre, hpre⟩ := h.2.2 hm
    refine ⟨String.mk pre, ?_⟩
    apply String.ext
    simp only [afterLastSlash, String.data_append]
    rw [List.append_assoc]
    exact hpre

theorem tagLabelName_ne_fixed (tagKey : String) :
    tagLabelName tagKey ≠ labelClusterName ∧ tagLabelName tagKey ≠ labelServiceName ∧
      tagLabelName tagKey ≠ labelTaskID := by
  refine ⟨?_, ?_, ?_⟩ <;>
  · intro h
    have h2 := congrArg String.data h
    simp only [tagLabelName, labelEcsServiceTagPrefix, labelEcsPrefix, labelClusterName,
      labelServiceName, labelTaskID, model.MetaLabelPrefix, String.data_append] at h2
    have h3 := congrArg (fun l => l.take 23) h2
    simp at h3

theorem mem_foldl_insert (name : String) (tags : List types.Tag) (acc : model.LabelSet)
    (h : name ∈ tags.foldl
      (fun labels tag => labels.insert (tagLabelName tag.Key) tag.Value) acc) :
    name ∈ acc ∨ ∃ tag ∈ tags, name = tagLabelName tag.Key := by
  induction tags generalizing acc with
  | nil => exact Or.inl h
  | cons tag tags ih =>
    rw [List.foldl_cons] at h
    rcases ih _ h with h1 | ⟨t, ht, hn⟩
    · rcases (AList.mem_insert acc).mp h1 with h2 | h2
      · exact Or.inr ⟨tag, List.mem_cons_self _ _, h2⟩
      · exact Or.inl h2
    · exact Or.inr ⟨t, List.mem_cons_of_mem _ ht, hn⟩

theorem mem_tagsToLabelSet (name : String) (tags : List types.Tag)
    (h : name ∈ tagsToLabelSet tags) : ∃ tag ∈ tags, name = tagLabelName tag.Key := by
  rcases mem_foldl_insert name tags ∅ h with h1 | h1
  · exact absurd h1 (AList.not_mem_empty name)
  · exact h1

theorem lookup_fixedLabels (clusterName serviceName taskID name : String) :
    (fixedLabels clusterName serviceName taskID).lookup name =
      if name = labelTaskID then some taskID
      else if name = labelServiceName then some serviceName
      else if name = labelClusterName then some clusterName
      else none := by
  unfold fixedLabels
  by_cases h1 : name = labelTaskID
  · rw [if_pos h1, h1]
    exact AList.lookup_insert _
  · rw [if_neg h1, AList.lookup_insert_ne h1]
    by_cases h2 : name = labelServiceName
    · rw [if_pos h2, h2]
      exact AList.lookup_insert _
    · rw [if_neg h2, AList.lookup_insert_ne h2]
      by_cases h3 : name = labelClusterName
      · rw [if_pos h3, h3]
        exact AList.lookup_insert _
      · rw [if_neg h3, AList.lookup_insert_ne h3]
        exact AList.lookup_empty _

theorem lookup_Merge (l other : model.LabelSet) (name : String) :
    (l.Merge other).lookup name =
      match other.lookup name with
      | some v => some v
      | none => l.lookup name := by
  unfold model.LabelSet.Merge
  cases h : other.lookup name with
  | some v =>
    have hm : name ∈ other := AList.lookup_isSome.mp (by rw [h]; rfl)
    exact (AList.lookup_union_left hm).trans h
  | none =>
    have hm : name ∉ other := AList.lookup_eq_none.mp h
    exact AList.lookup_union_right hm

/-- C6: the shape of an emitted target group.  For every task published for
the service ARN `service` of the cluster named `clusterName`, exactly one
group is appended; its source is `clusterName/name` where `name` is the part
of `service` after its last slash (all of `service` when it has none); its
targets are the single label set that maps `__address__` to
`<privateIPv4>:<metricsPort>`; its labels are the tag-derived labels together
with `__meta_ecs_cluster_name = clusterName`, `__meta_ecs_service_name = name`
and `__meta_ecs_task_id =` the part of the task ARN after its last slash, and
nothing else; every tag-derived label keeps its value. -/
theorem taskGroup_shape (clusterName service : String) (tags : List types.Tag)
    (metricsPort : String) (task : types.Task) (g : targetgroup.Group)
    (hg : taskGroup clusterName (afterLastSlash service) tags metricsPort task = some g) :
    (∀ tgs, taskLoop clusterName (afterLastSlash service) tags metricsPort tgs [task]
        = tgs ++ [g]) ∧
      g.Source = clusterName ++ "/" ++ afterLastSlash service ∧
      ('/' ∉ (afterLastSlash service).data ∧
        ('/' ∉ service.data → afterLastSlash service = service) ∧
        ('/' ∈ service.data → ∃ pre : String, service = pre ++ "/" ++ afterLastSlash service)) ∧
      (∃ ip, firstAddress task = some ip ∧
        g.Targets = [AList.singleton "__address__" (ip ++ ":" ++ metricsPort)]) ∧
      (∀ name, g.Labels.lookup name =
        if name = "__meta_ecs_task_id" then some (afterLastSlash task.TaskArn)
        else if name = "__meta_ecs_service_name" then some (afterLastSlash service)
        else if name = "__meta_ecs_cluster_name" then some clusterName
        else (tagsToLabelSet tags).lookup name) ∧
      (∀ name v, (tagsToLabelSet tags).lookup name = some v → g.Labels.lookup name = some v) := by
  have hlab : g.Labels = (tagsToLabelSet tags).Merge
      (fixedLabels clusterName (afterLastSlash service) (afterLastSlash task.TaskArn)) ∧
      g.Source = clusterName ++ "/" ++ afterLastSlash service ∧
      ∃ ip, firstAddress task = some ip ∧
        g.Targets = [AList.singleton "__address__" (ip ++ ":" ++ metricsPort)] := by
    unfold taskGroup at hg
    rcases task with ⟨arn, health, _ | ⟨⟨_ | ⟨⟨_ | ip⟩, nis⟩⟩, cs⟩⟩ <;>
      by_cases hh : health = types.HealthStatusHealthy <;>
      simp [hh] at hg
    subst hg
    exact ⟨rfl, rfl, ip, rfl, rfl⟩
  have hname : ∀ name, g.Labels.lookup name =
      if name = "__meta_ecs_task_id" then some (afterLastSlash task.TaskArn)
      else if name = "__meta_ecs_service_name" then some (afterLastSlash service)
      else if name = "__meta_ecs_cluster_name" then some clusterName
      else (tagsToLabelSet tags).lookup name := by
    intro name
    rw [hlab.1, lookup_Merge, lookup_fixedLabels]
    have e1 : labelTaskID = "__meta_ecs_task_id" := by decide
    have e2 : labelServiceName = "__meta_ecs_service_name" := by decide
    have e3 : labelClusterName = "__meta_ecs_cluster_name" := by decide
    rw [e1, e2, e3]
    split_ifs <;> rfl
  refine ⟨fun tgs => ?_, hlab.2.1, afterLastSlash_spec service, hlab.2.2, hname, ?_⟩
  · rw [taskLoop_eq]
    simp [List.filterMap_cons, hg]
  · intro name v hv
    have hm : name ∈ tagsToLabelSet tags := AList.lookup_isSome.mp (by rw [hv]; rfl)
    obtain ⟨tag, _, hn⟩ := mem_tagsToLabelSet name tags hm
    have hne := tagLabelName_ne_fixed tag.Key
    rw [← hn] at hne
    have e1 : labelTaskID = "__meta_ecs_task_id" := by decide
    have e2 : labelServiceName = "__meta_ecs_service_name" := by decide
    have e3 : labelClusterName = "__meta_ecs_cluster_name" := by decide
    rw [e1, e2, e3] at hne
    rw [hname, if_neg hne.2.2, if_neg hne.2.1, if_neg hne.1, hv]

/-- The statement of C6 at a concrete task of the service `web`. -/
theorem taskGroup_shape_witness :
    (∃ g, taskGroup "prod" (afterLastSlash "arn:aws:ecs:eu-west-1:1:service/prod/web")
        [{ Key := "Team", Value := "core" }] "9100" taskPublished = some g ∧
      g.Source = "prod" ++ "/" ++ afterLastSlash "arn:aws:ecs:eu-west-1:1:service/prod/web" ∧
      g.Labels.lookup "__meta_ecs_service_tag_team" = some "core") :=
  ⟨_, rfl,
    (taskGroup_shape "prod" "arn:aws:ecs:eu-west-1:1:service/prod/web"
      [{ Key := "Team", Value := "core" }] "9100" taskPublished _ rfl).2.1,
    (taskGroup_shape "prod" "arn:aws:ecs:eu-west-1:1:service/prod/web"
      [{ Key := "Team", Value := "core" }] "9100" taskPublished _ rfl).2.2.2.2.2
      "__meta_ecs_service_tag_team" "core" (by decide)⟩

/-- A whole pass over one cluster with one service and one published task
returns the single group that `taskGroup` builds for it. -/
theorem buildScrapeConfig_publishes :
    ({ client := clientPublished, clusters := ["prod"] } : Discovery Unit).buildScrapeConfig ()
      = ((), some (some (taskLoop "prod" "web" [] "80" [] [taskPublished]), none)) ∧
      (taskLoop "prod" "web" [] "80" [] [taskPublished]).map (fun g => (g.Source, g.Targets))
        = [("prod/web", [AList.singleton "__address__" "10.0.0.5:80"])] :=
  ⟨rfl, rfl⟩

end discovery



/-! ## More facts about the cache: `Range` and the janitor -/

namespace cache

theorem rangeLoop_mem {K V : Type} (now : Int) (f : K → Option V → Bool)
    (es : List (Sigma fun _ : K => item V)) (p : K × Option V)
    (hp : p ∈ rangeLoop now f es) :
    ∃ e ∈ es, e.2.expired now = false ∧ p = (e.1, e.2.data) := by
  induction es with
  | nil => simp [rangeLoop] at hp
  | cons e es ih =>
    cases hx : e.2.expired now with
    | true =>
      simp only [rangeLoop, hx, if_true] at hp
      obtain ⟨e1, h1, h2⟩ := ih hp
      exact ⟨e1, List.mem_cons_of_mem _ h1, h2⟩
    | false =>
      cases hf : f e.1 e.2.data with
      | true =>
        simp only [rangeLoop, hx, hf, if_true, Bool.false_eq_true, if_false,
          List.mem_cons] at hp
        rcases hp with h | h
        · exact ⟨e, List.mem_cons_self _ _, hx, h⟩
        · obtain ⟨e1, h1, h2⟩ := ih h
          exact ⟨e1, List.mem_cons_of_mem _ h1, h2⟩
      | false =>
        simp only [rangeLoop, hx, hf, Bool.false_eq_true, if_false,
          List.mem_singleton] at hp
        exact ⟨e, List.mem_cons_self _ _, hx, hp⟩

theorem rangeLoop_sublist {K V : Type} (now : Int) (f : K → Option V → Bool)
    (es : List (Sigma fun _ : K => item V)) :
    List.Sublist ((rangeLoop now f es).map Prod.fst) (es.map Sigma.fst) := by
  induction es with
  | nil => simp [rangeLoop]
  | cons e es ih =>
    cases hx : e.2.expired now with
    | true =>
      simp only [rangeLoop, hx, if_true, List.map_cons]
      exact List.Sublist.cons _ ih
    | false =>
      cases hf : f e.1 e.2.data with
      | true =>
        simp only [rangeLoop, hx, hf, if_true, Bool.false_eq_true, if_false, List.map_cons]
        exact List.Sublist.cons₂ _ ih
      | false =>
        simp only [rangeLoop, hx, hf, Bool.false_eq_true, if_false, List.map_cons,
          List.map_nil]
        exact List.Sublist.cons₂ _ (List.nil_sublist _)

theorem rangeLoop_dropLast {K V : Type} (now : Int) (f : K → Option V → Bool)
    (es : List (Sigma fun _ : K => item V)) :
    ∀ p ∈ (rangeLoop now f es).dropLast, f p.1 p.2 = true := by
  induction es with
  | nil => simp [rangeLoop]
  | cons e es ih =>
    cases hx : e.2.expired now with
    | true => simpa only [rangeLoop, hx, if_true] using ih
    | false =>
      cases hf : f e.1 e.2.data with
      | true =>
        simp only [rangeLoop, hx, hf, if_true, Bool.false_eq_true, if_false]
        intro p hp
        cases hr : rangeLoop now f es with
        | nil => simp [hr] at hp
        | cons r rs =>
          rw [hr, List.dropLast_cons₂, List.mem_cons] at hp
          rcases hp with h | h
          · rw [h]
            exact hf
          · exact ih p (by rw [hr]; exact h)
      | false => simp [rangeLoop, hx, hf]

/-- Erasing a key whose entries are all expired does not change what `Range`
does. -/
theorem rangeLoop_kerase {K V : Type} [DecidableEq K] (now : Int) (f : K → Option V → Bool)
    (k : K) (l : List (Sigma fun _ : K => item V))
    (h : ∀ x ∈ l, x.1 = k → x.2.expired now = true) :
    rangeLoop now f (List.kerase k l) = rangeLoop now f l := by
  induction l with
  | nil => rfl
  | cons x l ih =>
    by_cases hk : k = x.1
    · rw [List.kerase_cons_eq hk]
      have hx := h x (List.mem_cons_self _ _) hk.symm
      simp only [rangeLoop, hx, if_true]
    · rw [List.kerase_cons_ne hk]
      have ih1 := ih (fun y hy => h y (List.mem_cons_of_mem _ hy))
      simp only [rangeLoop, ih1]

theorem rangeLoop_foldl_erase {K V : Type} [DecidableEq K] (t1 t2 : Int)
    (f : K → Option V → Bool) (es : List (Sigma fun _ : K => item V))
    (s : AList (fun _ : K => item V))
    (h : ∀ e ∈ es, e.2.expired t1 = true →
      ∀ x ∈ s.entries, x.1 = e.1 → x.2.expired t2 = true) :
    rangeLoop t2 f (List.foldl
      (fun (s : AList (fun _ : K => item V)) (e : Sigma fun _ : K => item V) =>
        if e.2.expired t1 then s.erase e.1 else s) s es).entries = rangeLoop t2 f s.entries := by
  induction es generalizing s with
  | nil => rfl
  | cons e es ih =>
    rw [List.foldl_cons]
    by_cases hx : e.2.expired t1 = true
    · simp only [hx, if_true]
      rw [ih]
      · exact rangeLoop_kerase t2 f e.1 s.entries
          (fun x hx1 hk => h e (List.mem_cons_self _ _) hx x hx1 hk)
      · intro e1 he1 hexp x hx1 hk
        exact h e1 (List.mem_cons_of_mem _ he1) hexp x
          ((List.kerase_sublist e.1 s.entries).subset hx1) hk
    · simp only [hx]
      exact ih s (fun e1 he1 => h e1 (List.mem_cons_of_mem _ he1))

variable {K V : Type} [DecidableEq K]

theorem expired_mono (it : item V) (t1 t2 : Int) (h : t1 ≤ t2) (hx : it.expired t1 = true) :
    it.expired t2 = true := by
  simp only [item.expired, Bool.and_eq_true, decide_eq_true_eq] at hx ⊢
  exact ⟨hx.1, by omega⟩

theorem expired_false_iff (it : item V) (now : Int) :
    it.expired now = false ↔ (it.expires ≤ 0 ∨ now ≤ it.expires) := by
  simp only [item.expired, Bool.and_eq_false_imp, decide_eq_true_eq, decide_eq_false_iff_not]
  constructor
  · intro h
    by_cases h0 : it.expires > 0
    · right
      have := h h0
      omega
    · left
      omega
  · intro h h0
    omega

/-- C16: `Range` visits exactly the live entries.  Every call of the callback
is on a key of the store whose entry is not expired at the clock reading of
`Range` (whatever the stale-return setting), with the stored value; no key is
visited twice; every call but the last one returned true, so the iteration
stops at the first call that returns false; and when the callback always
returns true, every entry that is not expired, the never-expiring ones
(`expires ≤ 0`) included, is visited. -/
theorem Range_visits_live (c : Cache K V) (now : Int) (f : K → Option V → Bool) :
    (∀ p ∈ c.Range now f, ∃ it, c.items.lookup p.1 = some it ∧ it.expired now = false ∧
        (it.expires ≤ 0 ∨ now ≤ it.expires) ∧ p.2 = it.data) ∧
      ((c.Range now f).map Prod.fst).Nodup ∧
      (∀ p ∈ (c.Range now f).dropLast, f p.1 p.2 = true) ∧
      ((∀ k v, f k v = true) → ∀ k it, c.items.lookup k = some it →
        (it.expires ≤ 0 ∨ now ≤ it.expires) → (k, it.data) ∈ c.Range now f) := by
  refine ⟨?_, ?_, rangeLoop_dropLast now f c.items.entries, ?_⟩
  · intro p hp
    obtain ⟨⟨k, it⟩, hmem, hlive, hpe⟩ := rangeLoop_mem now f c.items.entries p hp
    refine ⟨it, ?_, hlive, (expired_false_iff it now).mp hlive, ?_⟩
    · rw [hpe]
      exact AList.mem_lookup_iff.mpr hmem
    · rw [hpe]
  · exact List.Nodup.sublist (rangeLoop_sublist now f c.items.entries) c.items.keys_nodup
  · intro hf k it hl hlive
    have hmem : (⟨k, it⟩ : Sigma fun _ : K => item V) ∈ c.items.entries :=
      AList.mem_lookup_iff.mp hl
    rcases rangeLoop_visits now f c.items.entries ⟨k, it⟩ hmem
      ((expired_false_iff it now).mpr hlive) with h | ⟨p, _, hp⟩
    · exact h
    · rw [hf] at hp
      cases hp

/-- The statement of C16 at a concrete cache: a never-expiring entry is
visited at a late time by a callback that always returns true. -/
theorem Range_visits_live_witness :
    ("k", some 7) ∈ ((New [.WithGetReturnStale] : Cache String Nat).Set 100 "k" (some 7) 0).Range
      9000 (fun _ _ => true) :=
  (Range_visits_live ((New [.WithGetReturnStale] : Cache String Nat).Set 100 "k" (some 7) 0)
    9000 (fun _ _ => true)).2.2.2 (fun _ _ => rfl) "k" { data := some 7, expires := 0 }
    (by decide) (by decide)

/-- C17: a janitor tick deletes exactly the expired entries.  After a tick at
`now` the store binds a key to an entry if and only if the store before the
tick bound the key to that same entry (same value, same expiry) and the expiry
of the entry is never (`expires ≤ 0`) or not earlier than `now`; the settings
of the cache are unchanged. -/
theorem janitorTick_exact (c : Cache K V) (now : Int) :
    (∀ key it, (c.janitorTick now).items.lookup key = some it ↔
        (c.items.lookup key = some it ∧ (it.expires ≤ 0 ∨ now ≤ it.expires))) ∧
      (c.janitorTick now).returnStale = c.returnStale ∧
      (c.janitorTick now).defaultExpiration = c.defaultExpiration ∧
      (c.janitorTick now).janitorInterval = c.janitorInterval := by
  refine ⟨fun key it => ?_, rfl, rfl, rfl⟩
  rw [lookup_janitorTick, ← expired_false_iff]
  cases hl : c.items.lookup key with
  | none => simp [Option.filter]
  | some it1 =>
    by_cases hx : it1.expired now = true
    · simp only [Option.filter, hx, Bool.not_true, Bool.false_eq_true, if_false,
        Option.some.injEq]
      constructor
      · intro h
        cases h
      · rintro ⟨h1, h2⟩
        rw [← h1, hx] at h2
        cases h2
    · simp only [Bool.not_eq_true] at hx
      simp only [Option.filter, hx, Bool.not_false, if_true, Option.some.injEq]
      constructor
      · intro h
        exact ⟨h, h ▸ hx⟩
      · intro h
        exact h.1

/-- C19, as stated, fails: with stale-return enabled, an entry that expired at
110 is read at time 300 as `(value, false)` when no sweep ran and as
`(nil, false)` when a sweep ran at time 200. -/
theorem sweep_visible_counterexample :
    (200 : Int) ≤ 300 ∧
      ((New [.WithGetReturnStale] : Cache String Nat).Set 100 "k" (some 7) 10).Get 300 "k"
        = (some 7, false) ∧
      (((New [.WithGetReturnStale] : Cache String Nat).Set 100 "k" (some 7) 10).janitorTick
        200).Get 300 "k" = (none, false) := by
  decide

/-- C19, amended: for times `t1 ≤ t2`, a sweep tick at `t1` does not change the
found flag that `Get` returns at `t2`, nor the calls that `Range` makes at `t2`;
with stale-return disabled it does not change the pair that `Get` returns; with
stale-return enabled it changes the pair only for an entry already expired at
`t1`, which is read as `(value, false)` without the sweep and as `(nil, false)`
with it. -/
theorem sweep_invisible (c : Cache K V) (key : K) (t1 t2 : Int) (h : t1 ≤ t2) :
    ((c.janitorTick t1).Get t2 key).2 = (c.Get t2 key).2 ∧
      (∀ f, (c.janitorTick t1).Range t2 f = c.Range t2 f) ∧
      (c.returnStale = false → (c.janitorTick t1).Get t2 key = c.Get t2 key) ∧
      (∀ it, c.items.lookup key = some it → it.expired t1 = false →
        (c.janitorTick t1).Get t2 key = c.Get t2 key) ∧
      (c.items.lookup key = none → (c.janitorTick t1).Get t2 key = c.Get t2 key) ∧
      (∀ it, c.returnStale = true → c.items.lookup key = some it → it.expired t1 = true →
        c.Get t2 key = (it.data, false) ∧ (c.janitorTick t1).Get t2 key = (none, false)) := by
  have hlk := lookup_janitorTick c t1 key
  have hst : (c.janitorTick t1).returnStale = c.returnStale := rfl
  have hkeep : ∀ it, c.items.lookup key = some it → it.expired t1 = false →
      (c.janitorTick t1).Get t2 key = c.Get t2 key := by
    intro it hl hx
    have h1 : (c.janitorTick t1).items.lookup key = some it := by
      rw [hlk, hl]
      simp [Option.filter, hx]
    rw [Get_of_lookup _ _ _ _ h1, Get_of_lookup _ _ _ _ hl, hst]
  have hnone : c.items.lookup key = none → (c.janitorTick t1).Get t2 key = c.Get t2 key := by
    intro hl
    have h1 : (c.janitorTick t1).items.lookup key = none := by
      rw [hlk, hl]
      rfl
    rw [Get_of_lookup_none _ _ _ h1, Get_of_lookup_none _ _ _ hl]
  have hgone : ∀ it, c.items.lookup key = some it → it.expired t1 = true →
      (c.janitorTick t1).Get t2 key = (none, false) ∧
      c.Get t2 key = (if c.returnStale then (it.data, false) else (none, false)) := by
    intro it hl hx
    have h1 : (c.janitorTick t1).items.lookup key = none := by
      rw [hlk, hl]
      simp [Option.filter, hx]
    rw [Get_of_lookup_none _ _ _ h1, Get_of_lookup _ _ _ _ hl, expired_mono it t1 t2 h hx]
    simp
  refine ⟨?_, ?_, ?_, hkeep, hnone, ?_⟩
  · cases hl : c.items.lookup key with
    | none => rw [hnone hl]
    | some it =>
      by_cases hx : it.expired t1 = true
      · obtain ⟨h1, h2⟩ := hgone it hl hx
        rw [h1, h2]
        cases c.returnStale <;> rfl
      · rw [hkeep it hl (by simpa using hx)]
  · intro f
    unfold Cache.Range Cache.janitorTick
    simp only
    apply rangeLoop_foldl_erase
    intro e he hexp x hx hk
    have hxe : x = e := c.items.nodupKeys.eq_of_fst_eq hx he hk
    rw [hxe]
    exact expired_mono _ t1 t2 h hexp
  · intro hs
    cases hl : c.items.lookup key with
    | none => exact hnone hl
    | some it =>
      by_cases hx : it.expired t1 = true
      · obtain ⟨h1, h2⟩ := hgone it hl hx
        rw [h1, h2, hs]
        rfl
      · exact hkeep it hl (by simpa using hx)
  · intro it hs hl hx
    obtain ⟨h1, h2⟩ := hgone it hl hx
    rw [h2, hs]
    exact ⟨rfl, h1⟩

/-- The amended C19 at a concrete cache without stale-return: read at 300, with
and without a sweep at 200. -/
theorem sweep_invisible_witness :
    (((New [] : Cache String Nat).Set 100 "k" (some 7) 10).janitorTick 200).Get 300 "k" =
      ((New [] : Cache String Nat).Set 100 "k" (some 7) 10).Get 300 "k" :=
  (sweep_invisible ((New [] : Cache String Nat).Set 100 "k" (some 7) 10) "k" 200 300
    (by decide)).2.2.1 rfl

end cache

/-! ## More facts about the cached client: time to live -/

namespace client

open cache

/-- Operations that do not write a key leave its binding as it was or, by a
janitor tick, remove it. -/
theorem lookup_run_keeps {K V : Type} [DecidableEq K] (key : K) (ops : List (Op K V))
    (c : Cache K V) (hops : ∀ op ∈ ops, op.keeps key) :
    (run c ops).items.lookup key = none ∨
      (run c ops).items.lookup key = c.items.lookup key := by
  induction ops generalizing c with
  | nil => exact Or.inr rfl
  | cons op ops ih =>
    simp only [run, List.foldl_cons]
    have hop := hops op (List.mem_cons_self _ _)
    have hstep : (op.apply c).items.lookup key = none ∨
        (op.apply c).items.lookup key = c.items.lookup key := by
      cases op with
      | Set now k value d =>
        right
        exact lookup_Set_ne _ _ _ _ _ _ hop
      | Delete k =>
        right
        exact lookup_Delete_ne _ _ _ hop
      | janitorTick now =>
        simp only [Op.apply]
        rw [lookup_janitorTick]
        cases hl : c.items.lookup key with
        | none => left; rfl
        | some it =>
          by_cases hx : it.expired now = true
          · left
            simp [Option.filter, hx]
          · right
            simp [Option.filter, hx]
    rcases ih (op.apply c) (fun o ho => hops o (List.mem_cons_of_mem _ ho)) with h | h
    · exact Or.inl h
    · rcases hstep with h1 | h1
      · left
        exact h.trans h1
      · right
        exact h.trans h1

theorem Get_miss_of_gone_or_expired (c : Cache String Value) (now : Int) (key : String)
    (it : item Value) (hx : it.expired now = true)
    (h : c.items.lookup key = none ∨ c.items.lookup key = some it) :
    (c.Get now key).2 = false := by
  rcases h with h | h
  · rw [Get_of_lookup_none _ _ _ h]
  · rw [Get_of_lookup _ _ _ _ h, hx]
    cases c.returnStale <;> rfl

theorem Get_hit_of_live (c : Cache String Value) (now : Int) (key : String) (it : item Value)
    (hx : it.expired now = false) (h : c.items.lookup key = some it) :
    c.Get now key = (it.data, true) := by
  rw [Get_of_lookup _ _ _ _ h, hx]
  rfl

theorem DescribeClusters_hit (ec : ECSCache) (now now2 : Int)
    (upstream : ecs.DescribeClustersInput → Response ecs.DescribeClustersOutput)
    (params : ecs.DescribeClustersInput) (v : Option ecs.DescribeClustersOutput)
    (h : ec.cache.Get now "DescribeClusters" = (some (.DescribeClustersOutput v), true)) :
    (ec.DescribeClusters now now2 upstream params).calls = [] ∧
      (ec.DescribeClusters now now2 upstream params).ret = some (v, none) := by
  unfold ECSCache.DescribeClusters
  rw [h]
  exact ⟨rfl, rfl⟩

theorem DescribeClusters_miss (ec : ECSCache) (now now2 : Int)
    (upstream : ecs.DescribeClustersInput → Response ecs.DescribeClustersOutput)
    (params : ecs.DescribeClustersInput)
    (h : (ec.cache.Get now "DescribeClusters").2 = false) :
    (ec.DescribeClusters now now2 upstream params).calls = [params] ∧
      ∀ v, upstream params = (v, none) →
        (ec.DescribeClusters now now2 upstream params).ret = some (v, none) ∧
        (ec.DescribeClusters now now2 upstream params).cache =
          ec.cache.Set now2 "DescribeClusters" (some (.DescribeClustersOutput v)) Hour := by
  unfold ECSCache.DescribeClusters
  rcases hg : ec.cache.Get now "DescribeClusters" with ⟨cached, b⟩
  rw [hg] at h
  simp only at h
  subst h
  rcases hu : upstream params with ⟨v, err⟩
  constructor
  · simp only
    split_ifs
    · split <;> rfl
    · rfl
  · intro v1 h1
    cases h1
    simp

theorem ListServices_hit (ec : ECSCache) (now now2 : Int)
    (upstream : ecs.ListServicesInput → Response ecs.ListServicesOutput)
    (cluster : String) (v : Option ecs.ListServicesOutput)
    (h : ec.cache.Get now ("ListServices-" ++ cluster) = (some (.ListServicesOutput v), true)) :
    (ec.ListServices now now2 upstream { Cluster := some cluster }).calls = [] ∧
      (ec.ListServices now now2 upstream { Cluster := some cluster }).ret = some (v, none) := by
  unfold ECSCache.ListServices
  simp only
  rw [h]
  exact ⟨rfl, rfl⟩

theorem ListServices_miss (ec : ECSCache) (now now2 : Int)
    (upstream : ecs.ListServicesInput → Response ecs.ListServicesOutput) (cluster : String)
    (h : (ec.cache.Get now ("ListServices-" ++ cluster)).2 = false) :
    (ec.ListServices now now2 upstream { Cluster := some cluster }).calls
        = [{ Cluster := some cluster }] ∧
      ∀ v, upstream { Cluster := some cluster } = (v, none) →
        (ec.ListServices now now2 upstream { Cluster := some cluster }).ret = some (v, none) ∧
        (ec.ListServices now now2 upstream { Cluster := some cluster }).cache =
          ec.cache.Set now2 ("ListServices-" ++ cluster) (some (.ListServicesOutput v))
            (5 * Minute) := by
  unfold ECSCache.ListServices
  simp only
  rcases hg : ec.cache.Get now ("ListServices-" ++ cluster) with ⟨cached, b⟩
  rw [hg] at h
  simp only at h
  subst h
  rcases hu : upstream { Cluster := some cluster } with ⟨v, err⟩
  constructor
  · simp only
    split_ifs
    · split <;> rfl
    · rfl
    · rfl
  · intro v1 h1
    cases h1
    simp

theorem ListTagsForResource_hit (ec : ECSCache) (now now2 : Int)
    (upstream : ecs.ListTagsForResourceInput → Response ecs.ListTagsForResourceOutput)
    (arn : String) (v : Option ecs.ListTagsForResourceOutput)
    (h : ec.cache.Get now ("ListTagsForResource-" ++ arn)
      = (some (.ListTagsForResourceOutput v), true)) :
    (ec.ListTagsForResource now now2 upstream { ResourceArn := some arn }).calls = [] ∧
      (ec.ListTagsForResource now now2 upstream { ResourceArn := some arn }).ret
        = some (v, none) := by
  unfold ECSCache.ListTagsForResource
  simp only
  rw [h]
  exact ⟨rfl, rfl⟩

theorem ListTagsForResource_miss (ec : ECSCache) (now now2 : Int)
    (upstream : ecs.ListTagsForResourceInput → Response ecs.ListTagsForResourceOutput)
    (arn : String) (h : (ec.cache.Get now ("ListTagsForResource-" ++ arn)).2 = false) :
    (ec.ListTagsForResource now now2 upstream { ResourceArn := some arn }).calls
        = [{ ResourceArn := some arn }] ∧
      ∀ v, upstream { ResourceArn := some arn } = (v, none) →
        (ec.ListTagsForResource now now2 upstream { ResourceArn := some arn }).ret
          = some (v, none) ∧
        (ec.ListTagsForResource now now2 upstream { ResourceArn := some arn }).cache =
          ec.cache.Set now2 ("ListTagsForResource-" ++ arn)
            (some (.ListTagsForResourceOutput v)) ec.cache.defaultExpiration := by
  unfold ECSCache.ListTagsForResource
  simp only
  rcases hg : ec.cache.Get now ("ListTagsForResource-" ++ arn) with ⟨cached, b⟩
  rw [hg] at h
  simp only at h
  subst h
  rcases hu : upstream { ResourceArn := some arn } with ⟨v, err⟩
  constructor
  · simp only
    split_ifs
    · split <;> rfl
    · rfl
    · rfl
  · intro v1 h1
    cases h1
    simp [Cache.SetDefault]

/-- What a stored entry with a time to live gives to later readers on a clock
of non-negative `int64` readings: from the store until the time to live is
over, and while no operation has touched its key, it is read as a hit (also
when `t + ttl` does not fit an `int64`: the wrapped expiry is negative and the
entry never expires); once the time to live is over it is read as a miss. -/
theorem ttl_entry (c : Cache String Value) (t ttl : Int) (key : String) (value : Option Value)
    (httl : ttl > 0) (hmax : ttl < 2 ^ 63) (h0 : 0 ≤ t) (ops : List (Op String Value))
    (t1 : Int) (hr : t1 < 2 ^ 63) :
    (t ≤ t1 → t1 ≤ t + ttl → (∀ op ∈ ops, op.leaves key t1) →
        (run (c.Set t key value ttl) ops).Get t1 key = (value, true)) ∧
      (t1 > t + ttl → (∀ op ∈ ops, op.keeps key) →
        ((run (c.Set t key value ttl) ops).Get t1 key).2 = false) := by
  have hset : (c.Set t key value ttl).items.lookup key =
      some { data := value, expires := wrapInt64 (t + ttl) } := by
    rw [lookup_Set_self, if_pos httl]
  constructor
  · intro hle h1 hops
    have hlive : ∀ tick : Int, tick ≤ t1 →
        ({ data := value, expires := wrapInt64 (t + ttl) } : item Value).expired tick
          = false := by
      intro tick htick
      simp only [item.expired, Bool.and_eq_false_imp, decide_eq_true_eq,
        decide_eq_false_iff_not]
      unfold wrapInt64
      have e63 : (2 : Int) ^ 63 = 9223372036854775808 := by norm_num
      have e64 : (2 : Int) ^ 64 = 18446744073709551616 := by norm_num
      rw [e63] at hmax hr ⊢
      rw [e64]
      omega
    have hrun := lookup_run key { data := value, expires := wrapInt64 (t + ttl) } ops
      (c.Set t key value ttl) hset (by
        intro op hop
        have h := hops op hop
        cases op with
        | Set now k v dd => exact ⟨h, fun _ hh => by cases hh⟩
        | Delete k => exact ⟨h, fun _ hh => by cases hh⟩
        | janitorTick now =>
          refine ⟨trivial, fun n hh => ?_⟩
          cases hh
          exact hlive _ h)
    exact Get_hit_of_live _ _ _ _ (hlive t1 (le_refl _)) hrun
  · intro h1 hops
    have hpos : 0 < t + ttl := by omega
    have hw : wrapInt64 (t + ttl) = t + ttl :=
      wrapInt64_of_range _ (le_trans (by norm_num) (le_of_lt hpos)) (lt_trans h1 hr)
    have hk := lookup_run_keeps key ops (c.Set t key value ttl) hops
    rw [hset, hw] at hk
    exact Get_miss_of_gone_or_expired _ _ _ { data := value, expires := t + ttl }
      (expired_true_of_lt _ _ hpos h1) hk

/-- C11: time to live per operation.  On a clock as `time.Now().UnixNano()`
gives it (non-negative `int64` readings), after a call of `DescribeClusters`,
`ListServices` or `ListTagsForResource` at time `t` that missed the cache and
whose upstream call succeeded with output `v`, every call with the same key at
a time `t1` with `t ≤ t1 ≤ t + TTL`, the key left alone in between, makes no
upstream call and returns `v` with a nil error, and a call at `t1 > t + TTL`
calls the upstream again; `TTL` is one hour, five minutes (key by cluster ARN)
and fifteen minutes (the default expiration that `NewECSCache` configures; key
by resource ARN). -/
theorem ttl_per_operation (ec : ECSCache) (t t1 now3 : Int) (ops : List (Op String Value))
    (hdef : ec.cache.defaultExpiration = 15 * Minute) (h0 : 0 ≤ t) (hr : t1 < 2 ^ 63) :
    (∀ upstream params v up1 params1,
        (ec.cache.Get t "DescribeClusters").2 = false → upstream params = (v, none) →
        (t ≤ t1 → t1 ≤ t + Hour → (∀ op ∈ ops, op.leaves "DescribeClusters" t1) →
          ((ECSCache.after (ec.DescribeClusters t t upstream params).cache ops).DescribeClusters
              t1 now3 up1 params1).calls = [] ∧
          ((ECSCache.after (ec.DescribeClusters t t upstream params).cache ops).DescribeClusters
              t1 now3 up1 params1).ret = some (v, none)) ∧
        (t1 > t + Hour → (∀ op ∈ ops, op.keeps "DescribeClusters") →
          ((ECSCache.after (ec.DescribeClusters t t upstream params).cache ops).DescribeClusters
              t1 now3 up1 params1).calls = [params1])) ∧
      (∀ upstream cluster v up1,
        (ec.cache.Get t ("ListServices-" ++ cluster)).2 = false →
        upstream { Cluster := some cluster } = (v, none) →
        (t ≤ t1 → t1 ≤ t + 5 * Minute →
          (∀ op ∈ ops, op.leaves ("ListServices-" ++ cluster) t1) →
          ((ECSCache.after (ec.ListServices t t upstream { Cluster := some cluster }).cache
              ops).ListServices t1 now3 up1 { Cluster := some cluster }).calls = [] ∧
          ((ECSCache.after (ec.ListServices t t upstream { Cluster := some cluster }).cache
              ops).ListServices t1 now3 up1 { Cluster := some cluster }).ret = some (v, none)) ∧
        (t1 > t + 5 * Minute → (∀ op ∈ ops, op.keeps ("ListServices-" ++ cluster)) →
          ((ECSCache.after (ec.ListServices t t upstream { Cluster := some cluster }).cache
              ops).ListServices t1 now3 up1 { Cluster := some cluster }).calls
            = [{ Cluster := some cluster }])) ∧
      (∀ upstream arn v up1,
        (ec.cache.Get t ("ListTagsForResource-" ++ arn)).2 = false →
        upstream { ResourceArn := some arn } = (v, none) →
        (t ≤ t1 → t1 ≤ t + 15 * Minute →
          (∀ op ∈ ops, op.leaves ("ListTagsForResource-" ++ arn) t1) →
          ((ECSCache.after
              (ec.ListTagsForResource t t upstream { ResourceArn := some arn }).cache
              ops).ListTagsForResource t1 now3 up1 { ResourceArn := some arn }).calls = [] ∧
          ((ECSCache.after
              (ec.ListTagsForResource t t upstream { ResourceArn := some arn }).cache
              ops).ListTagsForResource t1 now3 up1 { ResourceArn := some arn }).ret
            = some (v, none)) ∧
        (t1 > t + 15 * Minute → (∀ op ∈ ops, op.keeps ("ListTagsForResource-" ++ arn)) →
          ((ECSCache.after
              (ec.ListTagsForResource t t upstream { ResourceArn := some arn }).cache
              ops).ListTagsForResource t1 now3 up1 { ResourceArn := some arn }).calls
            = [{ ResourceArn := some arn }])) := by
  refine ⟨?_, ?_, ?_⟩
  · intro upstream params v up1 params1 hmiss hup
    have hc := ((DescribeClusters_miss ec t t upstream params hmiss).2 v hup).2
    have httl := ttl_entry ec.cache t Hour "DescribeClusters"
      (some (.DescribeClustersOutput v)) (by decide) (by decide) h0 ops t1 hr
    rw [hc]
    exact ⟨fun hle h1 hops =>
        DescribeClusters_hit _ t1 now3 up1 params1 v (httl.1 hle h1 hops),
      fun h1 hops => (DescribeClusters_miss _ t1 now3 up1 params1 (httl.2 h1 hops)).1⟩
  · intro upstream cluster v up1 hmiss hup
    have hc := ((ListServices_miss ec t t upstream cluster hmiss).2 v hup).2
    have httl := ttl_entry ec.cache t (5 * Minute) ("ListServices-" ++ cluster)
      (some (.ListServicesOutput v)) (by decide) (by decide) h0 ops t1 hr
    rw [hc]
    exact ⟨fun hle h1 hops => ListServices_hit _ t1 now3 up1 cluster v (httl.1 hle h1 hops),
      fun h1 hops => (ListServices_miss _ t1 now3 up1 cluster (httl.2 h1 hops)).1⟩
  · intro upstream arn v up1 hmiss hup
    have hc := ((ListTagsForResource_miss ec t t upstream arn hmiss).2 v hup).2
    have httl := ttl_entry ec.cache t (15 * Minute) ("ListTagsForResource-" ++ arn)
      (some (.ListTagsForResourceOutput v)) (by decide) (by decide) h0 ops t1 hr
    rw [hc, hdef]
    exact ⟨fun hle h1 hops =>
        ListTagsForResource_hit _ t1 now3 up1 arn v (httl.1 hle h1 hops),
      fun h1 hops => (ListTagsForResource_miss _ t1 now3 up1 arn (httl.2 h1 hops)).1⟩

/-- The statement of C11 at a concrete cache: `ListServices` for cluster `c1`,
called at 1000, is a hit at 2000 and a miss after five minutes. -/
theorem ttl_per_operation_witness :
    ((ECSCache.after (NewECSCache.ListServices 1000 1000 upstreamServices
        { Cluster := some "c1" }).cache []).ListServices 2000 2000 upstreamServices
        { Cluster := some "c1" }).calls = [] ∧
      ((ECSCache.after (NewECSCache.ListServices 1000 1000 upstreamServices
        { Cluster := some "c1" }).cache []).ListServices 300000001001 300000001001
        upstreamServices { Cluster := some "c1" }).calls = [{ Cluster := some "c1" }] :=
  ⟨((ttl_per_operation NewECSCache 1000 2000 2000 [] (by decide) (by decide)
      (by decide)).2.1 upstreamServices
      "c1" (some { ServiceArns := ["svc/a"] }) upstreamServices (by decide) rfl).1
      (by decide) (by decide) (by intro op hop; cases hop) |>.1,
    ((ttl_per_operation NewECSCache 1000 300000001001 300000001001 [] (by decide) (by decide)
      (by decide)).2.1
      upstreamServices "c1" (some { ServiceArns := ["svc/a"] }) upstreamServices (by decide)
      rfl).2 (by decide) (by intro op hop; cases hop)⟩

theorem taskKey_inj (a b : String) (h : "DescribeTasks-" ++ a = "DescribeTasks-" ++ b) :
    a = b := by
  have h2 := congrArg String.data h
  simp only [String.data_append] at h2
  exact String.ext (List.append_cancel_left h2)

/-- A loop of `Set` calls over tasks leaves the keys of other ARNs alone,
whatever value each iteration stores. -/
theorem storeLoop_lookup_other (g : types.Task → types.Task) (c : Cache String Value) (t : Int)
    (arn : String) (tasks : List types.Task) (h : ∀ y ∈ tasks, y.TaskArn ≠ arn) :
    (tasks.foldl
      (fun c task => c.Set t ("DescribeTasks-" ++ task.TaskArn) (some (.Task (g task))) Minute)
      c).items.lookup ("DescribeTasks-" ++ arn) =
      c.items.lookup ("DescribeTasks-" ++ arn) := by
  induction tasks generalizing c with
  | nil => rfl
  | cons x xs ih =>
    rw [List.foldl_cons, ih _ (fun y hy => h y (List.mem_cons_of_mem _ hy))]
    apply lookup_Set_ne
    intro hk
    exact h x (List.mem_cons_self _ _) (taskKey_inj _ _ hk)

/-- A loop of `Set` calls over tasks with pairwise distinct ARNs: the key of
each task ends up with the value that its iteration stored. -/
theorem storeLoop_lookup (g : types.Task → types.Task) (c : Cache String Value) (t : Int)
    (tasks : List types.Task) (hnd : (tasks.map fun task => task.TaskArn).Nodup)
    (task : types.Task) (hmem : task ∈ tasks) :
    (tasks.foldl
      (fun c task => c.Set t ("DescribeTasks-" ++ task.TaskArn) (some (.Task (g task))) Minute)
      c).items.lookup ("DescribeTasks-" ++ task.TaskArn) =
      some { data := some (.Task (g task)), expires := wrapInt64 (t + Minute) } := by
  induction tasks generalizing c with
  | nil => cases hmem
  | cons x xs ih =>
    rw [List.map_cons, List.nodup_cons] at hnd
    rw [List.foldl_cons]
    rcases List.mem_cons.mp hmem with h | h
    · subst h
      have hother : ∀ y ∈ xs, y.TaskArn ≠ task.TaskArn := by
        intro y hy hk
        exact hnd.1 (List.mem_map.mpr ⟨y, hy, hk⟩)
      rw [storeLoop_lookup_other g _ _ _ _ hother, lookup_Set_self]
      rfl
    · exact ih _ hnd.2 h

/-- The second loop of `DescribeTasks` on tasks with pairwise distinct ARNs.
With a loop variable per iteration each task ends up under its own key; with
a loop variable shared by all iterations every key ends up with the last task
of the response. -/
theorem storeTasks_lookup (perIteration : Bool) (c : Cache String Value) (t : Int)
    (tasks : List types.Task) (hnd : (tasks.map fun task => task.TaskArn).Nodup)
    (task : types.Task) (hmem : task ∈ tasks) :
    (ECSCache.storeTasks perIteration c t tasks).items.lookup
        ("DescribeTasks-" ++ task.TaskArn) =
      some { data := some (.Task (if perIteration then task else tasks.getLast?.getD task)),
             expires := wrapInt64 (t + Minute) } :=
  storeLoop_lookup (fun task => if perIteration then task else tasks.getLast?.getD task)
    c t tasks hnd task hmem

/-- The second loop of `DescribeTasks` with a loop variable shared by all
iterations, on a response of two tasks: the key of `task/2` holds `task/3`. -/
theorem storeTasks_shared_example :
    (ECSCache.storeTasks false NewECSCache.cache 1000
      [{ TaskArn := "task/2", HealthStatus := "UNKNOWN", Containers := [] },
       { TaskArn := "task/3", HealthStatus := "HEALTHY", Containers := [] }]).items.lookup
        "DescribeTasks-task/2" =
      some { data := some (.Task { TaskArn := "task/3", HealthStatus := "HEALTHY",
                                   Containers := [] }),
             expires := 1000 + Minute } := by
  rfl

theorem find_of_mem_nodup (tasks : List types.Task)
    (hnd : (tasks.map fun task => task.TaskArn).Nodup) (task : types.Task)
    (hmem : task ∈ tasks) :
    tasks.find? (fun x => decide (x.TaskArn = task.TaskArn)) = some task := by
  induction tasks with
  | nil => cases hmem
  | cons x xs ih =>
    rw [List.map_cons, List.nodup_cons] at hnd
    rcases List.mem_cons.mp hmem with h | h
    · subst h
      simp [List.find?_cons]
    · have hne : x.TaskArn ≠ task.TaskArn := by
        intro hk
        exact hnd.1 (List.mem_map.mpr ⟨task, h, hk.symm⟩)
      simp only [List.find?_cons, hne, decide_False]
      exact ih hnd.2 h

/-- C18: freshly fetched tasks are cached individually.  The loop variable of
the storing loop is per iteration (`goPerIterationLoopVar`).  When
`DescribeTasks` calls the upstream (some requested ARN has no fresh entry, and
the request names its cluster or none of its ARNs is a hit) and the call
succeeds with a response whose task ARNs are pairwise distinct, the stores
reading the clock at `t` (with `t + 1 minute` within the `int64` of
`UnixNano`), the cache afterwards holds for each task of the response an entry
under `"DescribeTasks-" + ARN` whose value is that very task and whose expiry
is `t + 1 minute`; and a second `DescribeTasks` call for any list of ARNs of
the response, at a time `t1 ≤ t + 1 minute` and naming its cluster unless the
list is empty, makes no upstream call and returns, with a nil error, the tasks
of the response with those ARNs. -/
theorem fetched_tasks_cached (ec : ECSCache) (now t : Int)
    (upstream : ecs.DescribeTasksInput → Response ecs.DescribeTasksOutput)
    (params : Option ecs.DescribeTasksInput) (response : ecs.DescribeTasksOutput)
    (hc : (params.bind fun p => p.Cluster) ≠ none ∨
      ∀ arn ∈ requested params, hasFresh ec now ("DescribeTasks-" ++ arn) = false)
    (hmiss : uncached ec now (requested params) ≠ [])
    (hup : upstream (upstreamInput ec now params) = (some response, none))
    (hnd : (response.Tasks.map fun task => task.TaskArn).Nodup)
    (hlow : -2 ^ 63 ≤ t + Minute) (hrep : t + Minute < 2 ^ 63) :
    (∀ task ∈ response.Tasks,
        (ec.DescribeTasks goPerIterationLoopVar now t upstream params).cache.items.lookup
          ("DescribeTasks-" ++ task.TaskArn) =
          some { data := some (.Task task), expires := t + Minute }) ∧
      (∀ (arns : List String) (perIteration : Bool) (t1 now3 : Int) up1 (cluster : Option String),
        (∀ arn ∈ arns, arn ∈ response.Tasks.map fun task => task.TaskArn) →
        (cluster ≠ none ∨ arns = []) →
        t1 ≤ t + Minute →
        ((ECSCache.after (ec.DescribeTasks goPerIterationLoopVar now t upstream params).cache
            []).DescribeTasks perIteration
            t1 now3 up1 (some { Cluster := cluster, Tasks := some arns })).calls = [] ∧
        ((ECSCache.after (ec.DescribeTasks goPerIterationLoopVar now t upstream params).cache
            []).DescribeTasks perIteration
            t1 now3 up1 (some { Cluster := cluster, Tasks := some arns })).ret =
          some (some { Tasks := arns.filterMap fun arn =>
            response.Tasks.find? fun task => decide (task.TaskArn = arn) }, none)) := by
  have hp : hitPanics ec now params = false := (hitPanics_false_iff ec now params).mpr hc
  have hcache : (ec.DescribeTasks goPerIterationLoopVar now t upstream params).cache =
      ECSCache.storeTasks true ec.cache t response.Tasks := by
    rw [DescribeTasks_unfold, hp]
    simp only [Bool.false_eq_true, if_false]
    rw [if_neg hmiss, hup]
    rfl
  have hw : wrapInt64 (t + Minute) = t + Minute := wrapInt64_of_range _ hlow hrep
  have hstored : ∀ task ∈ response.Tasks,
      (ec.DescribeTasks goPerIterationLoopVar now t upstream params).cache.items.lookup
        ("DescribeTasks-" ++ task.TaskArn) =
        some { data := some (.Task task), expires := t + Minute } := by
    intro task hmem
    rw [hcache, storeTasks_lookup true _ _ _ hnd task hmem, hw]
    rfl
  refine ⟨hstored, ?_⟩
  intro arns perIteration t1 now3 up1 cluster harns hcl ht1
  have hfresh : ∀ arn ∈ arns,
      hasFresh (ECSCache.after
          (ec.DescribeTasks goPerIterationLoopVar now t upstream params).cache []) t1
        ("DescribeTasks-" ++ arn) = true ∧
      cachedTask (ECSCache.after
          (ec.DescribeTasks goPerIterationLoopVar now t upstream params).cache []) t1 arn =
        response.Tasks.find? fun task => decide (task.TaskArn = arn) := by
    intro arn hmem
    obtain ⟨task, htask, hk⟩ := List.mem_map.mp (harns arn hmem)
    have hl := hstored task htask
    rw [hk] at hl
    have hx : ({ data := some (.Task task), expires := t + Minute } : item Value).expired t1
        = false := expired_false_of_le _ _ ht1
    constructor
    · simp only [hasFresh, ECSCache.after, run, List.foldl_nil, hl, hx, Bool.not_false]
    · simp only [cachedTask, ECSCache.after, run, List.foldl_nil, hl, hx]
      rw [← hk, find_of_mem_nodup _ hnd task htask]
      rfl
  have hunc : uncached (ECSCache.after
      (ec.DescribeTasks goPerIterationLoopVar now t upstream params).cache []) t1
      (requested (some { Cluster := cluster, Tasks := some arns })) = [] := by
    simp only [uncached, requested, List.filter_eq_nil_iff]
    intro arn hmem
    simp [(hfresh arn hmem).1]
  have hmap : arns.filterMap
      (cachedTask (ECSCache.after
        (ec.DescribeTasks goPerIterationLoopVar now t upstream params).cache []) t1) =
      arns.filterMap fun arn => response.Tasks.find? fun task => decide (task.TaskArn = arn) := by
    apply List.filterMap_congr
    intro arn hmem
    exact (hfresh arn hmem).2
  have hp2 : hitPanics (ECSCache.after
      (ec.DescribeTasks goPerIterationLoopVar now t upstream params).cache []) t1
      (some { Cluster := cluster, Tasks := some arns }) = false := by
    apply (hitPanics_false_iff _ _ _).mpr
    rcases hcl with h | h
    · exact Or.inl h
    · right
      intro arn hmem
      simp only [requested, h] at hmem
      cases hmem
  rw [DescribeTasks_unfold, hp2]
  simp only [Bool.false_eq_true, if_false]
  rw [if_pos hunc]
  refine ⟨rfl, ?_⟩
  simp only [requested]
  rw [hmap]

/-- The statement of C18 at a concrete cache: `task/2` and `task/3` are fetched
in one response at time 1000; the key of `task/2` holds `task/2` (and not
`task/3`) until `1000 + 1 minute`, and a second call at time 2000 reads both
back without an upstream call. -/
theorem fetched_tasks_cached_witness :
    (NewECSCache.DescribeTasks goPerIterationLoopVar 1000 1000 upstreamTasks23
        (some { Cluster := some "c1", Tasks := some ["task/2", "task/3"] })).cache.items.lookup
        ("DescribeTasks-" ++ "task/2") =
      some { data := some (.Task { TaskArn := "task/2", HealthStatus := "UNKNOWN",
                                   Containers := [] }),
             expires := 1000 + Minute } ∧
      ((ECSCache.after (NewECSCache.DescribeTasks goPerIterationLoopVar 1000 1000
          upstreamTasks23
          (some { Cluster := some "c1", Tasks := some ["task/2", "task/3"] })).cache
          []).DescribeTasks true
          2000 2000 upstreamDown
          (some { Cluster := some "c1", Tasks := some ["task/3", "task/2"] })).calls = [] ∧
      ((ECSCache.after (NewECSCache.DescribeTasks goPerIterationLoopVar 1000 1000
          upstreamTasks23
          (some { Cluster := some "c1", Tasks := some ["task/2", "task/3"] })).cache
          []).DescribeTasks true
          2000 2000 upstreamDown
          (some { Cluster := some "c1", Tasks := some ["task/3", "task/2"] })).ret =
        some (some { Tasks := [
          { TaskArn := "task/3", HealthStatus := "HEALTHY", Containers := [] },
          { TaskArn := "task/2", HealthStatus := "UNKNOWN", Containers := [] }] }, none) :=
  ⟨(fetched_tasks_cached NewECSCache 1000 1000 upstreamTasks23
      (some { Cluster := some "c1", Tasks := some ["task/2", "task/3"] })
      { Tasks := [{ TaskArn := "task/2", HealthStatus := "UNKNOWN", Containers := [] },
                  { TaskArn := "task/3", HealthStatus := "HEALTHY", Containers := [] }] }
      (Or.inl (by decide)) (by decide) rfl (by decide) (by decide) (by decide)).1
      { TaskArn := "task/2", HealthStatus := "UNKNOWN", Containers := [] } (by decide),
    (fetched_tasks_cached NewECSCache 1000 1000 upstreamTasks23
      (some { Cluster := some "c1", Tasks := some ["task/2", "task/3"] })
      { Tasks := [{ TaskArn := "task/2", HealthStatus := "UNKNOWN", Containers := [] },
                  { TaskArn := "task/3", HealthStatus := "HEALTHY", Containers := [] }] }
      (Or.inl (by decide)) (by decide) rfl (by decide) (by decide) (by decide)).2
      ["task/3", "task/2"] true 2000 2000 upstreamDown (some "c1") (by decide)
      (Or.inl (by decide)) (by decide)⟩

end client

/-! ## More facts about the aggregator: label names and the port -/

namespace discovery

theorem isUpper_iff (c : Char) : c.isUpper = true ↔ 65 ≤ c.toNat ∧ c.toNat ≤ 90 := by
  simp only [Char.isUpper, Bool.and_eq_true, decide_eq_true_eq, ge_iff_le, UInt32.le_def,
    BitVec.le_def, Char.toNat]
  have e1 : (UInt32.toBitVec 65).toNat = 65 := by decide
  have e2 : (UInt32.toBitVec 90).toNat = 90 := by decide
  rw [e1, e2]
  rfl

theorem toLower_of_upper (c : Char) (h : c.isUpper = true) : c.toLower.isLower = true := by
  have hu := (isUpper_iff c).mp h
  unfold Char.toLower
  simp only [ge_iff_le, hu, and_self, if_true]
  generalize c.toNat = n at hu
  obtain ⟨h1, h2⟩ := hu
  interval_cases n <;> decide

theorem toLower_of_not_upper (c : Char) (h : c.isUpper = false) : c.toLower = c := by
  have hu : ¬ (65 ≤ c.toNat ∧ c.toNat ≤ 90) := by
    rw [← isUpper_iff, h]
    simp
  unfold Char.toLower
  simp only [ge_iff_le, hu, if_false]

/-- The characters of `[a-z0-9_]`. -/
theorem toLower_class (c : Char)
    (h : c.isLower = true ∨ c.isUpper = true ∨ c.isDigit = true ∨ c = '_') :
    c.toLower.isLower = true ∨ c.toLower.isDigit = true ∨ c.toLower = '_' := by
  cases hu : c.isUpper with
  | true => exact Or.inl (toLower_of_upper c hu)
  | false =>
    rw [toLower_of_not_upper c hu]
    rcases h with h | h | h | h
    · exact Or.inl h
    · rw [hu] at h
      cases h
    · exact Or.inr (Or.inl h)
    · exact Or.inr (Or.inr h)

theorem validReplaceAll_class (s : List Char) :
    ∀ c ∈ validReplaceAll s,
      c.isLower = true ∨ c.isUpper = true ∨ c.isDigit = true ∨ c = '_' := by
  intro c hc
  unfold validReplaceAll at hc
  obtain ⟨a, _, ha⟩ := List.mem_map.mp hc
  by_cases hv : validClass a = true
  · rw [if_pos hv] at ha
    exact Or.inr (Or.inr (Or.inr ha.symm))
  · rw [if_neg hv] at ha
    subst ha
    simp only [validClass, Bool.not_eq_true', Bool.not_eq_false, Bool.or_eq_true,
      beq_iff_eq] at hv
    rcases hv with ((h | h) | h) | h
    · exact Or.inl h
    · exact Or.inr (Or.inl h)
    · exact Or.inr (Or.inr (Or.inl h))
    · exact Or.inr (Or.inr (Or.inr h))

theorem separatorReplaceAll_mem (s : List Char) :
    ∀ c ∈ separatorReplaceAll s, c ∈ s ∨ c = '_' := by
  induction s using separatorReplaceAll.induct with
  | case1 => intro c hc; simp [separatorReplaceAll] at hc
  | case2 a => intro c hc; exact Or.inl (by simpa [separatorReplaceAll] using hc)
  | case3 a b rest h ih =>
    intro c hc
    rw [separatorReplaceAll, if_pos h] at hc
    simp only [List.mem_cons] at hc ⊢
    rcases hc with h1 | h1 | h1 | h1
    · exact Or.inl (Or.inl h1)
    · exact Or.inr h1
    · exact Or.inl (Or.inr (Or.inl h1))
    · rcases ih c h1 with h2 | h2
      · exact Or.inl (Or.inr (Or.inr h2))
      · exact Or.inr h2
  | case4 a b rest h ih =>
    intro c hc
    rw [separatorReplaceAll, if_neg h] at hc
    simp only [List.mem_cons] at hc ⊢
    rcases hc with h1 | h1
    · exact Or.inl (Or.inl h1)
    · rcases ih c h1 with h2 | h2
      · simp only [List.mem_cons] at h2
        exact Or.inl (Or.inr h2)
      · exact Or.inr h2

/-- Every character behind the prefix of a derived label name is in
`[a-z0-9_]`. -/
theorem tagLabelName_class (tagKey : String) :
    ∃ rest : List Char, tagLabelName tagKey = "__meta_ecs_service_tag_" ++ String.mk rest ∧
      ∀ c ∈ rest, c.isLower = true ∨ c.isDigit = true ∨ c = '_' := by
  refine ⟨ToLower (separatorReplaceAll (validReplaceAll tagKey.data)), rfl, ?_⟩
  intro c hc
  unfold ToLower at hc
  obtain ⟨a, ha, hac⟩ := List.mem_map.mp hc
  rw [← hac]
  apply toLower_class
  rcases separatorReplaceAll_mem _ a ha with h | h
  · exact validReplaceAll_class _ a h
  · exact Or.inr (Or.inr (Or.inr h))

theorem length_foldl_insert (tags : List types.Tag) (acc : model.LabelSet) :
    (tags.foldl (fun labels tag => labels.insert (tagLabelName tag.Key) tag.Value)
      acc).entries.length ≤ acc.entries.length + tags.length := by
  induction tags generalizing acc with
  | nil => simp
  | cons tag tags ih =>
    rw [List.foldl_cons, List.length_cons]
    have h1 := ih (acc.insert (tagLabelName tag.Key) tag.Value)
    have h2 : (acc.insert (tagLabelName tag.Key) tag.Value).entries.length
        ≤ acc.entries.length + 1 := by
      rw [AList.insert_entries, List.length_cons]
      exact Nat.succ_le_succ (List.Sublist.length_le (List.kerase_sublist _ _))
    omega

theorem labelValue_last (name : String) (pre post : List types.Tag) (tag : types.Tag)
    (hname : reference.labelName tag.Key = name)
    (hpost : ∀ u ∈ post, reference.labelName u.Key ≠ name) :
    reference.labelValue name (pre ++ tag :: post) = some tag.Value := by
  have hp : reference.labelValue name post = none := by
    induction post with
    | nil => rfl
    | cons u us ih =>
      rw [reference.labelValue, ih (fun v hv => hpost v (List.mem_cons_of_mem _ hv))]
      simp [hpost u (List.mem_cons_self _ _)]
  have ht : reference.labelValue name (tag :: post) = some tag.Value := by
    rw [reference.labelValue, hp]
    simp [hname]
  induction pre with
  | nil => exact ht
  | cons u us ih =>
    rw [List.cons_append, reference.labelValue, ih]

/-- C20: every label name that `tagsToLabelSet` produces is
`__meta_ecs_service_tag_` followed only by characters of `[a-z0-9_]`, for
every tag list and whatever the tag keys hold; the label set has at most one
label per tag; and a tag that is the last of the list to derive its label name
gives that label its value, so that of two tags deriving the same name the
later one is kept. -/
theorem label_names_valid (tags : List types.Tag) :
    (∀ name, name ∈ tagsToLabelSet tags →
        ∃ rest : List Char, name = "__meta_ecs_service_tag_" ++ String.mk rest ∧
          ∀ c ∈ rest, c.isLower = true ∨ c.isDigit = true ∨ c = '_') ∧
      (tagsToLabelSet tags).entries.length ≤ tags.length ∧
      (∀ pre tag post, tags = pre ++ tag :: post →
        (∀ u ∈ post, tagLabelName u.Key ≠ tagLabelName tag.Key) →
        (tagsToLabelSet tags).lookup (tagLabelName tag.Key) = some tag.Value) := by
  refine ⟨?_, ?_, ?_⟩
  · intro name hmem
    obtain ⟨tag, _, hn⟩ := mem_tagsToLabelSet name tags hmem
    rw [hn]
    exact tagLabelName_class tag.Key
  · have h := length_foldl_insert tags ∅
    simpa [tagsToLabelSet] using h
  · intro pre tag post htags hpost
    unfold tagsToLabelSet
    rw [lookup_foldl_insert, htags,
      labelValue_last (tagLabelName tag.Key) pre post tag (tagLabelName_eq tag.Key).symm
        (fun u hu => by rw [← tagLabelName_eq]; exact hpost u hu)]

/-- The statement of C20 at a concrete tag list: two tags derive the same
label name and the later value is kept. -/
theorem label_names_valid_witness :
    (tagsToLabelSet [{ Key := "App-Name", Value := "old" },
        { Key := "app_name", Value := "new" }]).lookup (tagLabelName "app_name") = some "new" :=
  (label_names_valid [{ Key := "App-Name", Value := "old" },
    { Key := "app_name", Value := "new" }]).2.2 [{ Key := "App-Name", Value := "old" }]
    { Key := "app_name", Value := "new" } [] rfl (by intro u hu; cases hu)

theorem getTag_eq_find (tags : List types.Tag) (key : String) :
    getTag tags key =
      match tags.find? (fun tag => decide (tag.Key = key)) with
      | some tag => tag.Value
      | none => "" := by
  induction tags with
  | nil => rfl
  | cons tag tags ih =>
    by_cases h : tag.Key = key
    · simp [getTag, List.find?_cons, h]
    · simp [getTag, List.find?_cons, h, ih]

theorem taskGroup_targets (clusterName serviceName : String) (tags : List types.Tag)
    (metricsPort : String) (task : types.Task) (g : targetgroup.Group)
    (hg : taskGroup clusterName serviceName tags metricsPort task = some g) :
    ∃ ip, firstAddress task = some ip ∧
      g.Targets = [AList.singleton "__address__" (ip ++ ":" ++ metricsPort)] := by
  unfold taskGroup at hg
  rcases task with ⟨arn, health, _ | ⟨⟨_ | ⟨⟨_ | ip⟩, nis⟩⟩, cs⟩⟩ <;>
    by_cases hh : health = types.HealthStatusHealthy <;>
    simp [hh] at hg
  subst hg
  exact ⟨ip, rfl, rfl⟩

theorem serviceBody_success {σ : Type} (d : Discovery σ) (clusterName : String)
    (clusterArn : Option String) (st st1 st2 st3 : σ) (tgs : List targetgroup.Group)
    (service : String) (taskList : ecs.ListTasksOutput) (tasks : ecs.DescribeTasksOutput)
    (tags : ecs.ListTagsForResourceOutput)
    (h1 : d.client.ListTasks st { Cluster := clusterArn, ServiceName := some service }
      = (st1, some taskList, none))
    (h2 : d.client.DescribeTasks st1 { Cluster := clusterArn, Tasks := taskList.TaskArns }
      = (st2, some tasks, none))
    (h3 : d.client.ListTagsForResource st2 { ResourceArn := some service }
      = (st3, some tags, none)) :
    serviceBody d clusterName clusterArn st tgs service =
      (st3, .next (taskLoop clusterName (afterLastSlash service) tags.Tags
        (metricsPortOf tags.Tags) tgs tasks.Tasks)) := by
  unfold serviceBody
  simp only [h1, h2, h3]
  rfl

/-- C12, as stated, fails: the service carries the tag `metrics_port` and its
value is the empty string; the port of the target is `80`, not the value of
the tag. -/
theorem metrics_port_counterexample :
    getTag [{ Key := "metrics_port", Value := "" }] "metrics_port" = "" ∧
      ({ client := clientEmptyPort, clusters := ["prod"] } : Discovery Unit).buildScrapeConfig ()
        = ((), some (some (taskLoop "prod" "web" [{ Key := "metrics_port", Value := "" }] "80"
            [] [taskPublished]), none)) ∧
      (taskLoop "prod" "web" [{ Key := "metrics_port", Value := "" }] "80" []
          [taskPublished]).map (fun g => g.Targets)
        = [[AList.singleton "__address__" "10.0.0.5:80"]] ∧
      "10.0.0.5:80" ≠ "10.0.0.5" ++ ":" ++ "" :=
  ⟨rfl, rfl, rfl, by decide⟩

/-- C12, amended: the port used in every target of a service is the value of
the first tag of the service whose key is exactly `metrics_port` when there is
such a tag and its value is not empty, and `80` otherwise (no such tag, or an
empty value); with one healthy task of private IP 10.0.0.5 and no
`metrics_port` tag the single target is `10.0.0.5:80`. -/
theorem metrics_port_derivation (σ : Type) (tags : List types.Tag) :
    (metricsPortOf tags =
        match tags.find? (fun tag => decide (tag.Key = "metrics_port")) with
        | some tag => if tag.Value = "" then "80" else tag.Value
        | none => "80") ∧
      (∀ (d : Discovery σ) clusterName clusterArn (st st1 st2 st3 : σ) tgs service taskList tasks,
        d.client.ListTasks st { Cluster := clusterArn, ServiceName := some service }
          = (st1, some taskList, none) →
        d.client.DescribeTasks st1 { Cluster := clusterArn, Tasks := taskList.TaskArns }
          = (st2, some tasks, none) →
        d.client.ListTagsForResource st2 { ResourceArn := some service }
          = (st3, some { Tags := tags }, none) →
        serviceBody d clusterName clusterArn st tgs service =
          (st3, .next (taskLoop clusterName (afterLastSlash service) tags (metricsPortOf tags)
            tgs tasks.Tasks))) ∧
      (∀ clusterName serviceName tasks g,
        g ∈ taskLoop clusterName serviceName tags (metricsPortOf tags) [] tasks →
        ∃ task ∈ tasks, ∃ ip, firstAddress task = some ip ∧
          g.Targets = [AList.singleton "__address__" (ip ++ ":" ++ metricsPortOf tags)]) ∧
      (({ client := clientPublished, clusters := ["prod"] }
          : Discovery Unit).buildScrapeConfig ()).2.map
          (fun r => r.1.map (List.map fun g => g.Targets))
        = some (some [[AList.singleton "__address__" "10.0.0.5:80"]]) := by
  refine ⟨?_, ?_, ?_, rfl⟩
  · unfold metricsPortOf
    rw [getTag_eq_find]
    cases tags.find? (fun tag => decide (tag.Key = "metrics_port")) with
    | none => rfl
    | some tag => rfl
  · intro d clusterName clusterArn st st1 st2 st3 tgs service taskList tasks h1 h2 h3
    exact serviceBody_success d clusterName clusterArn st st1 st2 st3 tgs service taskList tasks
      { Tags := tags } h1 h2 h3
  · intro clusterName serviceName tasks g hg
    rw [taskLoop_eq, List.nil_append, List.mem_filterMap] at hg
    obtain ⟨task, hmem, htg⟩ := hg
    exact ⟨task, hmem, taskGroup_targets _ _ _ _ task g htg⟩

/-- The amended C12 at a concrete service: the tag `metrics_port` with value
`9100` gives the target `10.0.0.5:9100`. -/
theorem metrics_port_derivation_witness :
    ∃ task ∈ [taskPublished], ∃ ip, firstAddress task = some ip ∧
      (∀ g ∈ taskLoop "prod" "web" [{ Key := "metrics_port", Value := "9100" }]
          (metricsPortOf [{ Key := "metrics_port", Value := "9100" }]) [] [taskPublished],
        g.Targets = [AList.singleton "__address__" "10.0.0.5:9100"]) ∧ ip = "10.0.0.5" :=
  ⟨taskPublished, List.mem_singleton.mpr rfl, "10.0.0.5", rfl,
    fun g hg => by
      obtain ⟨task, hmem, ip, hip, htg⟩ :=
        (metrics_port_derivation Unit [{ Key := "metrics_port", Value := "9100" }]).2.2.1
          "prod" "web" [taskPublished] g hg
      rw [List.mem_singleton.mp hmem] at hip
      cases hip
      exact htg,
    rfl⟩

theorem Clean_append_none (tr : Trace) (call : Call) (h : Clean tr) :
    Clean (tr ++ [(call, none)]) := by
  intro p hp
  rcases List.mem_append.mp hp with h1 | h1
  · exact h p h1
  · rw [List.mem_singleton.mp h1]

theorem Aborted_append (tr : Trace) (call : Call) (e : GoError) (msg : String) (h : Clean tr) :
    Aborted (tr ++ [(call, some e)]) (.wrap msg e) :=
  ⟨tr, call, e, msg, rfl, h, rfl⟩

theorem serviceBody_traced {σ : Type} (c : ECS σ) (cl : List String) (cn : String)
    (ca : Option String) (st : σ) (tr : Trace) (tgs : List targetgroup.Group) (service : String)
    (h : Clean tr) :
    StepOk (serviceBody { client := traced c, clusters := cl } cn ca (st, tr) tgs service).1.2
      (serviceBody { client := traced c, clusters := cl } cn ca (st, tr) tgs service).2 := by
  unfold serviceBody
  simp only [traced]
  rcases h1 : c.ListTasks st { Cluster := ca, ServiceName := some service }
    with ⟨st1, out1, err1⟩
  cases err1 with
  | some e =>
    simp only [StepOk]
    exact Aborted_append _ _ e _ h
  | none =>
    cases out1 with
    | none =>
      simp only [StepOk]
      exact Clean_append_none _ _ h
    | some taskList =>
      simp only
      rcases h2 : c.DescribeTasks st1 { Cluster := ca, Tasks := taskList.TaskArns }
        with ⟨st2, out2, err2⟩
      cases err2 with
      | some e =>
        simp only [StepOk]
        exact Aborted_append _ _ e _ (Clean_append_none _ _ h)
      | none =>
        simp only
        rcases h3 : c.ListTagsForResource st2 { ResourceArn := some service }
          with ⟨st3, out3, err3⟩
        cases err3 with
        | some e =>
          simp only [StepOk]
          exact Aborted_append _ _ e _ (Clean_append_none _ _ (Clean_append_none _ _ h))
        | none =>
          cases out3 with
          | none =>
            simp only [StepOk]
            exact Clean_append_none _ _ (Clean_append_none _ _ (Clean_append_none _ _ h))
          | some tags =>
            cases out2 with
            | none =>
              simp only [StepOk]
              exact Clean_append_none _ _ (Clean_append_none _ _ (Clean_append_none _ _ h))
            | some tasks =>
              simp only [StepOk]
              exact Clean_append_none _ _ (Clean_append_none _ _ (Clean_append_none _ _ h))

theorem serviceLoop_traced {σ : Type} (c : ECS σ) (cl : List String) (cn : String)
    (ca : Option String) (services : List String) (st : σ) (tr : Trace)
    (tgs : List targetgroup.Group) (h : Clean tr) :
    StepOk
      (serviceLoop { client := traced c, clusters := cl } cn ca (st, tr) tgs services).1.2
      (serviceLoop { client := traced c, clusters := cl } cn ca (st, tr) tgs services).2 := by
  induction services generalizing st tr tgs with
  | nil => exact h
  | cons service services ih =>
    have hb := serviceBody_traced c cl cn ca st tr tgs service h
    unfold serviceLoop
    rcases hs : serviceBody { client := traced c, clusters := cl } cn ca (st, tr) tgs service
      with ⟨⟨st1, tr1⟩, step⟩
    rw [hs] at hb
    cases step with
    | next tgs1 => exact ih st1 tr1 tgs1 hb
    | fail err => exact hb
    | panicked => exact hb

theorem clusterBody_traced {σ : Type} (c : ECS σ) (cl : List String) (st : σ) (tr : Trace)
    (tgs : List targetgroup.Group) (cluster : types.Cluster) (h : Clean tr) :
    StepOk (clusterBody { client := traced c, clusters := cl } (st, tr) tgs cluster).1.2
      (clusterBody { client := traced c, clusters := cl } (st, tr) tgs cluster).2 := by
  have hloop := fun (services : List String) (st1 : σ) (tr1 : Trace) (h1 : Clean tr1) =>
    serviceLoop_traced c cl cluster.ClusterName cluster.ClusterArn services st1 tr1 tgs h1
  unfold clusterBody
  simp only [traced] at hloop ⊢
  rcases h1 : c.ListServices st { Cluster := cluster.ClusterArn } with ⟨st1, out1, err1⟩
  cases err1 with
  | some e =>
    simp only [StepOk]
    exact Aborted_append _ _ e _ h
  | none =>
    cases out1 with
    | none =>
      simp only [StepOk]
      exact Clean_append_none _ _ h
    | some services =>
      simp only
      exact hloop services.ServiceArns st1 _ (Clean_append_none _ _ h)

theorem clusterLoop_traced {σ : Type} (c : ECS σ) (cl : List String)
    (clusters : List types.Cluster) (st : σ) (tr : Trace) (tgs : List targetgroup.Group)
    (h : Clean tr) :
    StepOk (clusterLoop { client := traced c, clusters := cl } (st, tr) tgs clusters).1.2
      (clusterLoop { client := traced c, clusters := cl } (st, tr) tgs clusters).2 := by
  induction clusters generalizing st tr tgs with
  | nil => exact h
  | cons cluster clusters ih =>
    have hb := clusterBody_traced c cl st tr tgs cluster h
    unfold clusterLoop
    rcases hs : clusterBody { client := traced c, clusters := cl } (st, tr) tgs cluster
      with ⟨⟨st1, tr1⟩, step⟩
    rw [hs] at hb
    cases step with
    | next tgs1 => exact ih st1 tr1 tgs1 hb
    | fail err => exact hb
    | panicked => exact hb

/-- How a whole pass over a recording client can end: either no call returned
an error, and the pass panicked, found no cluster, or returned groups with a
nil error after at least one cluster had resolved; or the last call returned
an error, and the pass returned no groups and an error that wraps it. -/
theorem buildScrapeConfig_traced {σ : Type} (c : ECS σ) (cl : List String) (st : σ) :
    (Clean (({ client := traced c, clusters := cl }
          : Discovery (σ × Trace)).buildScrapeConfig (st, [])).1.2 ∧
        ((({ client := traced c, clusters := cl }
            : Discovery (σ × Trace)).buildScrapeConfig (st, [])).2 = none ∨
          (∃ msg, (({ client := traced c, clusters := cl }
            : Discovery (σ × Trace)).buildScrapeConfig (st, [])).2
              = some (some [], some (.mk msg))) ∨
          (∃ tgs, (({ client := traced c, clusters := cl }
            : Discovery (σ × Trace)).buildScrapeConfig (st, [])).2 = some (some tgs, none) ∧
            ∃ st1 out, c.DescribeClusters st { Clusters := cl } = (st1, some out, none) ∧
              out.Clusters ≠ []))) ∨
      (∃ err, Aborted (({ client := traced c, clusters := cl }
          : Discovery (σ × Trace)).buildScrapeConfig (st, [])).1.2 err ∧
        (({ client := traced c, clusters := cl }
          : Discovery (σ × Trace)).buildScrapeConfig (st, [])).2 = some (none, some err)) := by
  have h0 : Clean ([] : Trace) := fun p hp => by cases hp
  have hloop := fun (clusters : List types.Cluster) (st1 : σ) (tr1 : Trace) (h1 : Clean tr1) =>
    clusterLoop_traced c cl clusters st1 tr1 [] h1
  unfold Discovery.buildScrapeConfig
  simp only [traced] at hloop ⊢
  rcases h1 : c.DescribeClusters st { Clusters := cl } with ⟨st1, out1, err1⟩
  cases err1 with
  | some e =>
    simp only
    exact Or.inr ⟨_, Aborted_append _ _ e _ h0, rfl⟩
  | none =>
    cases out1 with
    | none =>
      simp only
      exact Or.inl ⟨Clean_append_none _ _ h0, Or.inl trivial⟩
    | some out =>
      simp only
      by_cases hlen : out.Clusters.length = 0
      · rw [if_pos hlen]
        exact Or.inl ⟨Clean_append_none _ _ h0, Or.inr (Or.inl ⟨_, rfl⟩)⟩
      · rw [if_neg hlen]
        have hl := hloop out.Clusters st1
          ([] ++ [(Call.DescribeClusters { Clusters := cl }, none)])
          (Clean_append_none _ _ h0)
        revert hl
        cases clusterLoop _ (st1, [] ++ [(Call.DescribeClusters { Clusters := cl }, none)]) []
            out.Clusters with
        | mk st2 step =>
          intro hl
          cases step with
          | next tgs =>
            exact Or.inl ⟨hl, Or.inr (Or.inr ⟨tgs, rfl, st1, out, rfl, fun hnil => hlen (by
              rw [hnil]; rfl)⟩)⟩
          | fail err => exact Or.inr ⟨err, hl, rfl⟩
          | panicked => exact Or.inl ⟨hl, Or.inl rfl⟩

theorem trace_last_error (tr0 pre post : Trace) (x y : Call × Option GoError) (e : GoError)
    (hclean : Clean tr0) (hx : x.2 = some e) (h : pre ++ x :: post = tr0 ++ [y]) :
    post = [] ∧ x = y := by
  cases post with
  | nil =>
    have h2 := List.append_inj' h rfl
    exact ⟨rfl, by simpa using h2.2⟩
  | cons z zs =>
    exfalso
    have h2 := congrArg List.dropLast h
    rw [List.dropLast_concat, List.dropLast_append_of_ne_nil _ (by simp),
      List.dropLast_cons₂] at h2
    have hmem : x ∈ tr0 := by
      rw [← h2]
      simp
    have := hclean x hmem
    rw [hx] at this
    cases this

theorem Wraps_wrap (msg : String) (e : GoError) : (GoError.wrap msg e).Wraps e = true := by
  have hself : ∀ e : GoError, e.Wraps e = true := by
    intro e
    cases e <;> simp [GoError.Wraps]
  simp [GoError.Wraps, hself e]

/-- C13: zero resolved clusters is an error.  When `DescribeClusters` succeeds
with an empty cluster list, the pass returns the error `no valid clusters
found` together with an empty list of groups, and `DescribeClusters` is the
only call made on the client. -/
theorem no_clusters_is_error {σ : Type} (c : ECS σ) (clusters : List String) (st st1 : σ)
    (out : ecs.DescribeClustersOutput)
    (h : c.DescribeClusters st { Clusters := clusters } = (st1, some out, none))
    (hempty : out.Clusters = []) :
    ({ client := traced c, clusters := clusters }
        : Discovery (σ × Trace)).buildScrapeConfig (st, []) =
      ((st1, [(Call.DescribeClusters { Clusters := clusters }, none)]),
        some (some [], some (.mk ("no valid clusters found: clusters="
          ++ fmtStrings clusters)))) := by
  unfold Discovery.buildScrapeConfig
  simp only [traced, h, hempty, List.length_nil, if_true, List.nil_append]

/-- The statement of C13 at a concrete client that resolves no cluster. -/
theorem no_clusters_is_error_witness :
    ({ client := traced clientNoCluster, clusters := ["prod", "stage"] }
        : Discovery (Unit × Trace)).buildScrapeConfig ((), []) =
      (((), [(Call.DescribeClusters { Clusters := ["prod", "stage"] }, none)]),
        some (some [], some (.mk "no valid clusters found: clusters=[prod stage]"))) :=
  no_clusters_is_error clientNoCluster ["prod", "stage"] () () { Clusters := [] } rfl rfl

/-- C14: an upstream failure aborts the whole pass.  In the trace of the calls
that a pass makes on its client, a call that returned an error `e` is the last
call of the pass, and the pass returns no groups (a nil slice) and a non-nil
error that wraps `e`; a pass that returns a nil error has made only calls that
succeeded, returns a list of groups, and its `DescribeClusters` call resolved
at least one cluster. -/
theorem upstream_failure_aborts {σ : Type} (c : ECS σ) (clusters : List String) (st : σ) :
    (∀ pre call e post,
        (({ client := traced c, clusters := clusters }
          : Discovery (σ × Trace)).buildScrapeConfig (st, [])).1.2
          = pre ++ (call, some e) :: post →
        post = [] ∧
        ∃ msg, (({ client := traced c, clusters := clusters }
            : Discovery (σ × Trace)).buildScrapeConfig (st, [])).2
              = some (none, some (.wrap msg e)) ∧
          (GoError.wrap msg e).Wraps e = true) ∧
      (∀ gs, (({ client := traced c, clusters := clusters }
          : Discovery (σ × Trace)).buildScrapeConfig (st, [])).2 = some (gs, none) →
        (∀ p ∈ (({ client := traced c, clusters := clusters }
          : Discovery (σ × Trace)).buildScrapeConfig (st, [])).1.2, p.2 = none) ∧
        (∃ tgs, gs = some tgs) ∧
        ∃ st1 out, c.DescribeClusters st { Clusters := clusters } = (st1, some out, none) ∧
          out.Clusters ≠ []) := by
  have hb := buildScrapeConfig_traced c clusters st
  constructor
  · intro pre call e post htr
    rcases hb with ⟨hclean, _⟩ | ⟨err, ⟨tr0, call0, e0, msg, htr0, hclean0, herr⟩, hret⟩
    · exfalso
      have := hclean (call, some e) (by rw [htr]; simp)
      cases this
    · rw [htr] at htr0
      obtain ⟨hpost, hxy⟩ := trace_last_error tr0 pre post (call, some e) (call0, some e0) e
        hclean0 rfl htr0
      have he : e = e0 := by
        have := congrArg Prod.snd hxy
        simpa using this
      refine ⟨hpost, msg, ?_, Wraps_wrap msg e⟩
      rw [hret, herr, he]
  · intro gs hgs
    rcases hb with ⟨hclean, h1 | ⟨msg, h1⟩ | ⟨tgs, h1, hres⟩⟩ | ⟨err, _, hret⟩
    · rw [h1] at hgs
      cases hgs
    · rw [h1] at hgs
      cases hgs
    · rw [h1] at hgs
      cases hgs
      exact ⟨hclean, ⟨tgs, rfl⟩, hres⟩
    · rw [hret] at hgs
      cases hgs

/-- The statement of C14 at a concrete client whose `ListTasks` call fails: the
failing call is the last one and the pass returns an error that wraps its
error. -/
theorem upstream_failure_aborts_witness :
    ∃ msg, (({ client := traced clientTasksDown, clusters := ["prod"] }
        : Discovery (Unit × Trace)).buildScrapeConfig ((), [])).2
          = some (none, some (.wrap msg (.mk "ThrottlingException"))) ∧
      (GoError.wrap msg (.mk "ThrottlingException")).Wraps (.mk "ThrottlingException") = true :=
  ((upstream_failure_aborts clientTasksDown ["prod"] ()).1
    [(Call.DescribeClusters { Clusters := ["prod"] }, none),
      (Call.ListServices { Cluster := some "cluster/prod" }, none)]
    (Call.ListTasks { Cluster := some "cluster/prod", ServiceName := some "service/prod/web" })
    (.mk "ThrottlingException") [] rfl).2

/-- C15: on an upstream failure the pass returns a nil slice, which
`json.MarshalIndent` encodes as `null`: the body written by `writeScrapeConfig`
is `null`, not a JSON array, whatever the encoding of a group is.  The sibling
outcomes do write an array: `[]` when no cluster resolves and `[]` when the
encoding fails. -/
theorem writeScrapeConfig_null (encodeGroup : targetgroup.Group → Option String) :
    (Discovery.writeScrapeConfig encodeGroup
        ({ client := clientDown, clusters := ["prod"] } : Discovery Unit) ()).2 = some "null" ∧
      (Discovery.writeScrapeConfig encodeGroup
        ({ client := clientTasksDown, clusters := ["prod"] } : Discovery Unit) ()).2
          = some "null" ∧
      (Discovery.writeScrapeConfig encodeGroup
        ({ client := clientNoCluster, clusters := ["prod"] } : Discovery Unit) ()).2
          = some "[]" ∧
      (Discovery.writeScrapeConfig (fun _ => none)
        ({ client := clientPublished, clusters := ["prod"] } : Discovery Unit) ()).2
          = some "[]" :=
  ⟨rfl, rfl, rfl, rfl⟩

end discovery

end EcsSd
